import Mathlib

/-!
# pazdriver: the Logger of `wrapper.go`

A shallow embedding of `wrapper.go`.  Go maps and slices are reference types, so the
embedding passes an explicit `World` around: a store of map objects, a store of the backing
arrays of slices, the trace of calls made to the logging engine, and the iteration orders the
runtime picks for `range` over a map (Go leaves that order unspecified).

Parameters of the development:
* `E`   the engine reference (`*zap.Logger`);
* `F`   the values of type `Field` (`interface{}`);
* `Z`   the values of type `zap.Field`, whose zero value is `default`;
* `Err` the values of type `error` (`nil` is `none`).

The files `source.go`, `report.go` and `http.go` are not among the sources: `newSource`,
`newReportContext` and `NewHTTP` are modelled from the spec, and the table of `TestNewHTTP` is
taken from `http_test.go`.
-/

namespace Pazdriver

/-! ## Go runtime: maps, slices, range order -/

/-- A Go map object with string keys: entries with pairwise distinct keys.  The
representation keeps them in some order (the key assigned last comes first); a program sees
the entries only in the order a `range` visits them, see `RangeOrder`. -/
abbrev GoMap (V : Type) := AList (fun _ : String => V)

/-- One choice, made by the Go runtime, of the order in which a `range` over a map visits the
entries: some permutation of them. -/
structure RangeOrder : Type 1 where
  order : {α : Type} → List α → List α
  perm : ∀ {α : Type} (l : List α), (order l).Perm l

/-- The runtime visits the entries in the order in which the model stores them. -/
def RangeOrder.stored : RangeOrder := ⟨fun l => l, fun l => List.Perm.refl l⟩

/-- The runtime visits the entries in the opposite order. -/
def RangeOrder.reversed : RangeOrder := ⟨fun l => l.reverse, fun l => List.reverse_perm l⟩

/-- A slice header: the backing array (`none` for the nil slice), length and capacity.  Every
slice of `wrapper.go` starts at index 0 of its array, so no offset is kept. -/
structure Slice where
  arr : Option Nat
  len : Nat
  cap : Nat
deriving DecidableEq, Repr

/-- The nil slice. -/
def Slice.nil : Slice := ⟨none, 0, 0⟩

/-- Severity of a call to the engine. -/
inductive Level where
  | info
  | error
  | fatal
deriving DecidableEq, Repr

/-- One call `l.logger.Info/Error/Fatal(msg, fields...)` received by the engine. -/
structure Call (E Z : Type) where
  engine : E
  level : Level
  msg : String
  fields : List Z

/-- The program state outside the `Logger` structs. -/
structure World (E F Z : Type) : Type 1 where
  /-- the `map[string]string` objects, by address -/
  labelMaps : List (GoMap String)
  /-- the `map[string]Field` objects, by address -/
  fieldMaps : List (GoMap F)
  /-- the backing arrays of the `[]zap.Field` slices, by address -/
  arrays : List (List Z)
  /-- the calls the engine has received, oldest first -/
  calls : List (Call E Z)
  /-- the order the runtime picks for the n-th `range` over a map -/
  sched : Nat → RangeOrder
  /-- the number of `range` loops over maps run so far -/
  ranges : Nat

/-- The functions `wrapper.go` calls that are defined outside it. -/
structure ZapLib (E F Z Err : Type) where
  /-- `NewProductionWithCore(WrapCore(ReportAllErrors(true), ServiceName(serviceName)))` -/
  NewProductionWithCore : String → Except Err E
  /-- `fmt.Errorf` of a constant format -/
  Errorf : String → Err
  /-- `zap.Any(key, value)` -/
  Any : String → F → Z
  /-- `zap.Error(err)` -/
  Error : Option Err → Z
  /-- `Label(key, value)` -/
  Label : String → String → Z
  /-- `Labels(fields...)` -/
  Labels : List Z → Z

/-- The struct `Logger`.  Maps are references into the world (`none` is the nil map). -/
structure Logger (E : Type) where
  logger : E
  labelMap : Option Nat
  labelList : Slice
  fieldMap : Option Nat
  fieldList : Slice
deriving DecidableEq, Repr

section Runtime

variable {E F Z Err V : Type}

/-- The map object a reference points to; the nil map reads as the empty map. -/
def mapAt (store : List (GoMap V)) (r : Option Nat) : GoMap V :=
  match r with
  | none => ∅
  | some a => (store[a]?).getD ∅

/-- The assignment `m[key] = value` on the map object at address `a`. -/
def mapSet (store : List (GoMap V)) (a : Nat) (key : String) (value : V) : List (GoMap V) :=
  match store[a]? with
  | some m => store.set a (m.insert key value)
  | none => store

/-- The elements `s[0], ..., s[len-1]` of a slice. -/
def sliceElems (arrays : List (List Z)) (s : Slice) : List Z :=
  match s.arr with
  | none => []
  | some a => ((arrays[a]?).getD []).take s.len

/-- Overwrite the cells `i, i+1, ...` of an array with `xs`. -/
def writeCells (cells : List Z) (i : Nat) (xs : List Z) : List Z :=
  cells.take i ++ xs ++ cells.drop (i + xs.length)

namespace World

/-- The `map[string]string` object behind a reference. -/
def labelMapAt (w : World E F Z) (r : Option Nat) : GoMap String := mapAt w.labelMaps r

/-- The `map[string]Field` object behind a reference. -/
def fieldMapAt (w : World E F Z) (r : Option Nat) : GoMap F := mapAt w.fieldMaps r

/-- The elements of a slice in this world. -/
def elems (w : World E F Z) (s : Slice) : List Z := sliceElems w.arrays s

/-- The header of a `range` loop over a map: the runtime picks the order in which the entries
are visited. -/
def rangeOver (w : World E F Z) (m : GoMap V) : List ((_ : String) × V) × World E F Z :=
  ((w.sched w.ranges).order m.entries, { w with ranges := w.ranges + 1 })

/-- The builtin `make(map[string]string, n)`: a new empty map object. -/
def makeLabelMap (w : World E F Z) : Nat × World E F Z :=
  (w.labelMaps.length, { w with labelMaps := w.labelMaps ++ [∅] })

/-- The builtin `make(map[string]Field, n)`: a new empty map object. -/
def makeFieldMap (w : World E F Z) : Nat × World E F Z :=
  (w.fieldMaps.length, { w with fieldMaps := w.fieldMaps ++ [∅] })

/-- The assignment `m[key] = value` on a `map[string]string`. -/
def setLabel (w : World E F Z) (a : Nat) (key value : String) : World E F Z :=
  { w with labelMaps := mapSet w.labelMaps a key value }

/-- The assignment `m[key] = value` on a `map[string]Field`. -/
def setField (w : World E F Z) (a : Nat) (key : String) (value : F) : World E F Z :=
  { w with fieldMaps := mapSet w.fieldMaps a key value }

/-- The builtin `make([]zap.Field, 0, n)`: a new array of `n` zero values and a slice of
length 0 over it. -/
def makeSlice [Inhabited Z] (w : World E F Z) (n : Nat) : Slice × World E F Z :=
  (⟨some w.arrays.length, 0, n⟩, { w with arrays := w.arrays ++ [List.replicate n default] })

/-- The builtin `append(s, xs...)`.  When the values fit in the capacity of `s` they are
written into its backing array, after the first `len` cells; otherwise a new array is
allocated that holds the elements of `s` followed by `xs`.  (How far the runtime rounds the
new capacity up is not modelled: `wrapper.go` appends to such a slice no further.) -/
def append (w : World E F Z) (s : Slice) (xs : List Z) : Slice × World E F Z :=
  if s.len + xs.length ≤ s.cap then
    match s.arr with
    | some a =>
      (⟨some a, s.len + xs.length, s.cap⟩,
        { w with arrays := match w.arrays[a]? with
                           | some cells => w.arrays.set a (writeCells cells s.len xs)
                           | none => w.arrays })
    | none => (⟨none, s.len + xs.length, s.cap⟩, w)
  else
    (⟨some w.arrays.length, s.len + xs.length, s.len + xs.length⟩,
      { w with arrays := w.arrays ++ [w.elems s ++ xs] })

end World

end Runtime

/-! ## wrapper.go -/

section Wrapper

variable {E F Z Err : Type}

/-- The variable `defaultFields`. -/
def defaultFields : List String :=
  ["caller", "context", "error", "message", "serviceContext", "stacktrace", "timestamp"]

/-- The function `isDefaultKey`. -/
def isDefaultKey (key : String) : Bool :=
  defaultFields.any (fun k => k == key)

/-- The function `NewLogger`: the `*Logger` (or nil) and the error (or nil). -/
def NewLogger (zap : ZapLib E F Z Err) (w : World E F Z) (serviceName : String) :
    (Option (Logger E) × Option Err) × World E F Z :=
  let noName := serviceName.length == 0
  let serviceName := if serviceName.length == 0 then "unknown-service" else serviceName
  match zap.NewProductionWithCore serviceName with
  | .error err => ((none, some err), w)
  | .ok zapLogger =>
    let err : Option Err :=
      if noName then some (zap.Errorf "zapdriver.NewLogger, servicename not set") else none
    let (labelMap, w) := w.makeLabelMap
    let (fieldMap, w) := w.makeFieldMap
    ((some ⟨zapLogger, some labelMap, Slice.nil, some fieldMap, Slice.nil⟩, err), w)

/-- The function `copyLabelMap`. -/
def copyLabelMap (w : World E F Z) (l : Logger E) : Nat × World E F Z :=
  let src := w.labelMapAt l.labelMap
  let (newMap, w) := w.makeLabelMap
  let (entries, w) := w.rangeOver src
  (newMap, entries.foldl (fun w e => w.setLabel newMap e.1 e.2) w)

/-- The function `copyFieldMap`. -/
def copyFieldMap (w : World E F Z) (l : Logger E) : Nat × World E F Z :=
  let src := w.fieldMapAt l.fieldMap
  let (newMap, w) := w.makeFieldMap
  let (entries, w) := w.rangeOver src
  (newMap, entries.foldl (fun w e => w.setField newMap e.1 e.2) w)

/-- The function `copyList`.  The loop appends to the new slice only, so the elements of
`origList` are read once, before the loop. -/
def copyList [Inhabited Z] (w : World E F Z) (origList : Slice) : Slice × World E F Z :=
  let labels := w.elems origList
  let (newList, w) := w.makeSlice origList.len
  labels.foldl (fun (sw : Slice × World E F Z) label => sw.2.append sw.1 [label]) (newList, w)

/-- The function `generateLabelList`. -/
def generateLabelList [Inhabited Z] (zap : ZapLib E F Z Err) (w : World E F Z)
    (labelMap : Option Nat) : Slice × World E F Z :=
  let m := w.labelMapAt labelMap
  let (zapfields, w) := w.makeSlice m.entries.length
  let (entries, w) := w.rangeOver m
  entries.foldl
    (fun (sw : Slice × World E F Z) e => sw.2.append sw.1 [zap.Label e.1 e.2]) (zapfields, w)

/-- The function `generateFieldList`. -/
def generateFieldList [Inhabited Z] (zap : ZapLib E F Z Err) (w : World E F Z)
    (fieldMap : Option Nat) : Slice × World E F Z :=
  let m := w.fieldMapAt fieldMap
  let (zapfields, w) := w.makeSlice m.entries.length
  let (entries, w) := w.rangeOver m
  entries.foldl
    (fun (sw : Slice × World E F Z) e => sw.2.append sw.1 [zap.Any e.1 e.2]) (zapfields, w)

/-- The method `WithLabel`. -/
def WithLabel [Inhabited Z] (zap : ZapLib E F Z Err) (w : World E F Z) (l : Logger E)
    (key value : String) : Logger E × World E F Z :=
  let (labelMap, w) := copyLabelMap w l
  let w := w.setLabel labelMap key value
  let (labelList, w) := generateLabelList zap w (some labelMap)
  let (fieldMap, w) := copyFieldMap w l
  let (fieldList, w) := copyList w l.fieldList
  (⟨l.logger, some labelMap, labelList, some fieldMap, fieldList⟩, w)

/-- The method `WithLabels`.  The argument map is only read, so it is passed by value. -/
def WithLabels [Inhabited Z] (zap : ZapLib E F Z Err) (w : World E F Z) (l : Logger E)
    (labels : GoMap String) : Logger E × World E F Z :=
  let (labelMap, w) := copyLabelMap w l
  let (entries, w) := w.rangeOver labels
  let w := entries.foldl (fun w e => w.setLabel labelMap e.1 e.2) w
  let (labelList, w) := generateLabelList zap w (some labelMap)
  let (fieldMap, w) := copyFieldMap w l
  let (fieldList, w) := copyList w l.fieldList
  (⟨l.logger, some labelMap, labelList, some fieldMap, fieldList⟩, w)

/-- The method `WithField`. -/
def WithField [Inhabited Z] (zap : ZapLib E F Z Err) (w : World E F Z) (l : Logger E)
    (key : String) (value : F) : Logger E × World E F Z :=
  let (fieldMap, w) := copyFieldMap w l
  let w := if !isDefaultKey key then w.setField fieldMap key value else w
  let (fieldList, w) := generateFieldList zap w (some fieldMap)
  let (labelMap, w) := copyLabelMap w l
  let (labelList, w) := copyList w l.labelList
  (⟨l.logger, some labelMap, labelList, some fieldMap, fieldList⟩, w)

/-- The method `WithFields`.  The argument map is only read, so it is passed by value. -/
def WithFields [Inhabited Z] (zap : ZapLib E F Z Err) (w : World E F Z) (l : Logger E)
    (fields : GoMap F) : Logger E × World E F Z :=
  let (fieldMap, w) := copyFieldMap w l
  let (entries, w) := w.rangeOver fields
  let w := entries.foldl
    (fun w e => if !isDefaultKey e.1 then w.setField fieldMap e.1 e.2 else w) w
  let (fieldList, w) := generateFieldList zap w (some fieldMap)
  let (labelMap, w) := copyLabelMap w l
  let (labelList, w) := copyList w l.labelList
  (⟨l.logger, some labelMap, labelList, some fieldMap, fieldList⟩, w)

/-- The call `l.logger.Info/Error/Fatal(msg, fields...)`: the engine receives the message and
the elements of `fields`. -/
def World.emit (w : World E F Z) (engine : E) (level : Level) (msg : String) (fields : Slice) :
    World E F Z :=
  { w with calls := w.calls ++ [⟨engine, level, msg, w.elems fields⟩] }

/-- The method `Info`. -/
def Info (zap : ZapLib E F Z Err) (w : World E F Z) (l : Logger E) (msg : String) :
    World E F Z :=
  let (fields, w) := w.append l.fieldList [zap.Labels (w.elems l.labelList)]
  w.emit l.logger Level.info msg fields

/-- The method `Error`. -/
def Error (zap : ZapLib E F Z Err) (w : World E F Z) (l : Logger E) (msg : String)
    (err : Option Err) : World E F Z :=
  let (fields, w) := w.append l.fieldList [zap.Error err, zap.Labels (w.elems l.labelList)]
  w.emit l.logger Level.error msg fields

/-- The method `Fatal`. -/
def Fatal (zap : ZapLib E F Z Err) (w : World E F Z) (l : Logger E) (msg : String)
    (err : Option Err) : World E F Z :=
  let (fields, w) := w.append l.fieldList [zap.Error err, zap.Labels (w.elems l.labelList)]
  w.emit l.logger Level.fatal msg fields

end Wrapper

/-! ## Specification vocabulary -/

section Vocabulary

variable {E F Z Err V α : Type}

/-- The map obtained from `m` by the assignments `m[e.1] = e.2`, for `e` along `es`. -/
def insertAll (m : GoMap V) (es : List ((_ : String) × V)) : GoMap V :=
  es.foldl (fun m e => m.insert e.1 e.2) m

/-- A map reference is nil or the address of an object of the store. -/
def validRef (store : List α) (r : Option Nat) : Prop :=
  match r with
  | none => True
  | some a => a < store.length

instance (store : List α) (r : Option Nat) : Decidable (validRef store r) := by
  unfold validRef; cases r <;> exact inferInstance

/-- The cells of the backing array a slice header points to (none for the nil slice). -/
def cellsOf (arrays : List (List Z)) (s : Slice) : List Z :=
  match s.arr with
  | none => []
  | some a => (arrays[a]?).getD []

/-- A slice header of the Go runtime: `len ≤ cap`, and the capacity does not exceed the
backing array. -/
def World.ValidSlice (w : World E F Z) (s : Slice) : Prop :=
  s.len ≤ s.cap ∧ s.cap ≤ (cellsOf w.arrays s).length

instance (w : World E F Z) (s : Slice) : Decidable (w.ValidSlice s) := by
  unfold World.ValidSlice; exact inferInstance

/-- The references held by a `Logger` point into the world. -/
def World.Live (w : World E F Z) (l : Logger E) : Prop :=
  validRef w.labelMaps l.labelMap ∧ validRef w.fieldMaps l.fieldMap ∧
    w.ValidSlice l.labelList ∧ w.ValidSlice l.fieldList

instance (w : World E F Z) (l : Logger E) : Decidable (w.Live l) := by
  unfold World.Live; exact inferInstance

/-- The world `w'` has every object of `w`, unchanged, and every call of `w`; it may have more
of both. -/
def World.Extends (w w' : World E F Z) : Prop :=
  w.labelMaps <+: w'.labelMaps ∧ w.fieldMaps <+: w'.fieldMaps ∧ w.arrays <+: w'.arrays ∧
    w.calls <+: w'.calls

/-- The outcome `r` of `WithLabel` or `WithLabels` on `l` in `w`, where `look` gives the
labels the new logger is to have: three new objects and one new array per list. -/
def LabelDerived [Inhabited Z] (zap : ZapLib E F Z Err) (w : World E F Z) (l : Logger E)
    (look : String → Option String) (r : Logger E × World E F Z) : Prop :=
  ∃ (lm : GoMap String) (fm : GoMap F) (la : List Z),
    r.2.labelMaps = w.labelMaps ++ [lm] ∧ r.2.fieldMaps = w.fieldMaps ++ [fm] ∧
    r.2.arrays = w.arrays ++ [la,
      sliceElems (w.arrays ++ [la]) l.fieldList ++ (List.replicate l.fieldList.len default).drop
        (sliceElems (w.arrays ++ [la]) l.fieldList).length] ∧
    r.2.calls = w.calls ∧ r.2.sched = w.sched ∧
    r.1 = ⟨l.logger, some w.labelMaps.length, ⟨some w.arrays.length, la.length, la.length⟩,
      some w.fieldMaps.length,
      ⟨some (w.arrays.length + 1), (sliceElems (w.arrays ++ [la]) l.fieldList).length,
        l.fieldList.len⟩⟩ ∧
    (∀ k, lm.lookup k = look k) ∧
    la.Perm (lm.entries.map (fun e => zap.Label e.1 e.2)) ∧
    (∀ k, fm.lookup k = (w.fieldMapAt l.fieldMap).lookup k)

/-- The outcome `r` of `WithField` or `WithFields` on `l` in `w`, where `look` gives the
fields the new logger is to have. -/
def FieldDerived [Inhabited Z] (zap : ZapLib E F Z Err) (w : World E F Z) (l : Logger E)
    (look : String → Option F) (r : Logger E × World E F Z) : Prop :=
  ∃ (lm : GoMap String) (fm : GoMap F) (fa : List Z),
    r.2.labelMaps = w.labelMaps ++ [lm] ∧ r.2.fieldMaps = w.fieldMaps ++ [fm] ∧
    r.2.arrays = w.arrays ++ [fa,
      sliceElems (w.arrays ++ [fa]) l.labelList ++ (List.replicate l.labelList.len default).drop
        (sliceElems (w.arrays ++ [fa]) l.labelList).length] ∧
    r.2.calls = w.calls ∧ r.2.sched = w.sched ∧
    r.1 = ⟨l.logger, some w.labelMaps.length,
      ⟨some (w.arrays.length + 1), (sliceElems (w.arrays ++ [fa]) l.labelList).length,
        l.labelList.len⟩,
      some w.fieldMaps.length, ⟨some w.arrays.length, fa.length, fa.length⟩⟩ ∧
    (∀ k, fm.lookup k = look k) ∧
    fa.Perm (fm.entries.map (fun e => zap.Any e.1 e.2)) ∧
    (∀ k, lm.lookup k = (w.labelMapAt l.labelMap).lookup k)

/-- A call of one of the four `With*` methods, with its arguments. -/
inductive WithCall (F : Type) where
  | withLabel (key value : String)
  | withLabels (labels : GoMap String)
  | withField (key : String) (value : F)
  | withFields (fields : GoMap F)

/-- Run a `With*` call on the logger `l`. -/
def WithCall.apply [Inhabited Z] (zap : ZapLib E F Z Err) (w : World E F Z) (l : Logger E) :
    WithCall F → Logger E × World E F Z
  | .withLabel key value => WithLabel zap w l key value
  | .withLabels labels => WithLabels zap w l labels
  | .withField key value => WithField zap w l key value
  | .withFields fields => WithFields zap w l fields

/-- The loggers a program can hold, and the worlds it can hold them in: a logger is built by
`NewLogger` or derived from a reachable one by a `With*` call, and it is still there after
the program has gone on to build, derive from or log through another logger (or this one).
`Fatal` is left out: the engine ends the process. -/
inductive Reachable [Inhabited Z] (zap : ZapLib E F Z Err) : World E F Z → Logger E → Prop where
  | root (w : World E F Z) (serviceName : String) (l : Logger E) (err : Option Err) :
      (NewLogger zap w serviceName).1 = (some l, err) →
      Reachable zap (NewLogger zap w serviceName).2 l
  | derive {w : World E F Z} {l : Logger E} (c : WithCall F) :
      Reachable zap w l → Reachable zap (c.apply zap w l).2 (c.apply zap w l).1
  | keep {w : World E F Z} {l l' : Logger E} (c : WithCall F) :
      Reachable zap w l → Reachable zap w l' → Reachable zap (c.apply zap w l').2 l
  | keepRoot {w : World E F Z} {l : Logger E} (serviceName : String) :
      Reachable zap w l → Reachable zap (NewLogger zap w serviceName).2 l
  | keepInfo {w : World E F Z} {l l' : Logger E} (msg : String) :
      Reachable zap w l → Reachable zap w l' → Reachable zap (Info zap w l' msg) l
  | keepError {w : World E F Z} {l l' : Logger E} (msg : String) (err : Option Err) :
      Reachable zap w l → Reachable zap w l' → Reachable zap (Error zap w l' msg err) l

/-- What holds of every reachable logger. -/
def Consistent [Inhabited Z] (zap : ZapLib E F Z Err) (w : World E F Z) (l : Logger E) : Prop :=
  w.Live l ∧ l.labelList.len = l.labelList.cap ∧ l.fieldList.len = l.fieldList.cap ∧
    (w.elems l.labelList).Perm
      ((w.labelMapAt l.labelMap).entries.map (fun e => zap.Label e.1 e.2)) ∧
    (w.elems l.fieldList).Perm
      ((w.fieldMapAt l.fieldMap).entries.map (fun e => zap.Any e.1 e.2)) ∧
    ∀ k, isDefaultKey k = true → (w.fieldMapAt l.fieldMap).lookup k = none

end Vocabulary

/-! ## A concrete instance, for evaluating the model -/

/-- A `zap.Field` written symbolically: the constructor that built it and its arguments
(`zero` is the zero value `zap.Field{}`). -/
inductive SymField where
  | zero
  | any (key : String) (value : Nat)
  | error (err : Option String)
  | label (key value : String)
  | labels (fields : List (String × String))
deriving DecidableEq, Repr

instance : Inhabited SymField := ⟨SymField.zero⟩

/-- An instance of the library: the engine is known by its service name, its construction
succeeds, `Field` values are numbers, and `Labels` groups the label fields it is given. -/
def symZap : ZapLib String Nat SymField String where
  NewProductionWithCore := fun serviceName => Except.ok serviceName
  Errorf := fun format => format
  Any := SymField.any
  Error := SymField.error
  Label := SymField.label
  Labels := fun fields =>
    SymField.labels (fields.filterMap (fun f =>
      match f with
      | SymField.label key value => some (key, value)
      | _ => none))

/-- The world of a program that has allocated nothing yet, with the runtime's choice of
`range` orders. -/
def World.start (sched : Nat → RangeOrder) : World String Nat SymField :=
  ⟨[], [], [], [], sched, 0⟩

/-- The world after `NewLogger("svc")` in `World.start`, every `range` in stored order. -/
def exWorld : World String Nat SymField :=
  (NewLogger symZap (World.start (fun _ => RangeOrder.stored)) "svc").2

/-- The logger `NewLogger("svc")` returns there. -/
def exRoot : Logger String := ⟨"svc", some 0, Slice.nil, some 0, Slice.nil⟩

/-- `exRoot.WithLabel("a", "1").WithLabel("b", "2")` and the world it is in. -/
def exTwoLabels : Logger String × World String Nat SymField :=
  WithLabel symZap (WithLabel symZap exWorld exRoot "a" "1").2
    (WithLabel symZap exWorld exRoot "a" "1").1 "b" "2"

/-- The world after `NewLogger("svc")` in a program whose ninth `range` over a map runs in
the opposite of the stored order, and every other one in stored order. -/
def exWorldRev : World String Nat SymField :=
  (NewLogger symZap
    (World.start (fun n => if n = 8 then RangeOrder.reversed else RangeOrder.stored)) "svc").2

/-- `exRoot.WithField("x", 1)` there, and the world it is in. -/
def exOneField : Logger String × World String Nat SymField :=
  WithField symZap exWorldRev exRoot "x" 1

/-! ## Code that is not among the sources, modelled from the spec -/

section SpecModelled

variable {Z Err : Type}

/-- Modelled from the spec: the function `zap.Error` of the package go.uber.org/zap, which is
not among the sources.  The spec has `error(msg, err)` include "a rendered field carrying `err`'s
description" and says that "a null/absent error is valid input and renders as an empty
description".  `describe` is the description text of an error and `field` the rendered field
that carries a description. -/
def specZapError (describe : Err → String) (field : String → Z) (err : Option Err) : Z :=
  match err with
  | none => field ""
  | some e => field (describe e)

end SpecModelled

/-- A stack-frame descriptor: what `runtime.Caller` returns, and the name of the function at
`pc`. -/
structure Frame where
  pc : Nat
  file : String
  line : Int
  function : String
  ok : Bool

/-- The struct `source`, with the fields the tests read. -/
structure source where
  File : String
  Line : String
  Function : String
deriving DecidableEq, Repr

/-- The struct `reportContext`, with the field the tests read. -/
structure reportContext where
  ReportLocation : source
deriving DecidableEq, Repr

/-- Modelled from the spec: the function `newSource` (source.go is not among the sources), the
operation `locate(frame)` of the spec: a source location with the file and the function of the
descriptor and with "`line` rendered as its decimal string form"; "if ok is false the fields
are populated with whatever (possibly zero-valued) data the descriptor carries". -/
def newSource (frame : Frame) : source :=
  ⟨frame.file, toString frame.line, frame.function⟩

/-- Modelled from the spec: the function `newReportContext` (report.go is not among the sources),
the operation `report(frame)` of the spec: it "delegates entirely to" `locate` and "wraps the
result under a single `reportLocation` key". -/
def newReportContext (frame : Frame) : reportContext :=
  ⟨newSource frame⟩

/-- The fields of a `url.URL` that the tests set. -/
structure URL where
  Scheme : String
  Host : String
  Path : String
  RawQuery : String
deriving DecidableEq, Repr

/-- The parts of an `http.Request` the payload is built from.  `Header` gives the first value
of each header that is set, and `Body` the bytes the body stream yields (`none` for a request
without a body). -/
structure Request where
  Method : String
  URL : Option URL
  Proto : String
  Header : List (String × String)
  Body : Option (List Nat)
  RemoteAddr : String
deriving DecidableEq, Repr

/-- The parts of an `http.Response` the payload is built from. -/
structure Response where
  StatusCode : Int
  Body : Option (List Nat)
deriving DecidableEq, Repr

/-- The struct `HTTPPayload`, with the fields the spec lists and the tests set. -/
structure HTTPPayload where
  RequestMethod : String
  RequestURL : String
  RequestSize : String
  Status : Int
  ResponseSize : String
  UserAgent : String
  RemoteIP : String
  Referer : String
  Protocol : String
deriving DecidableEq, Repr

/-- The zero value `HTTPPayload{}`. -/
def HTTPPayload.zero : HTTPPayload := ⟨"", "", "", 0, "", "", "", "", ""⟩

/-- The zero value `http.Request{}`. -/
def Request.zero : Request := ⟨"", none, "", [], none, ""⟩

/-- The zero value `http.Response{}`. -/
def Response.zero : Response := ⟨0, none⟩

/-- The method `Header.Get`: the value of a header, empty when the header is not set. -/
def headerGet (header : List (String × String)) (key : String) : String :=
  (header.lookup key).getD ""

/-- Modelled from the spec: how `NewHTTP` renders the request URL, in the words of the spec:
"`scheme://host` reconstructed from the parsed URL only when both are non-empty, else empty
string". -/
def specRequestURL (u : URL) : String :=
  if u.Scheme ≠ "" ∧ u.Host ≠ "" then u.Scheme ++ "://" ++ u.Host else ""

/-- Modelled from the spec: how `NewHTTP` renders the request URL (http.go is not among the
sources), with the one change the tests of the repository force.  The spec's rule is
`specRequestURL`; the entry "simple request" of `TestNewHTTP` contradicts it for a URL that has
neither a scheme nor a host, where the test wants the path.  So the rendering is
`scheme://host` when both are non-empty, as in the spec; the path when both are empty; and the
empty string otherwise, as in the spec.  The query is dropped throughout, as in the spec. -/
def requestURL (u : URL) : String :=
  if u.Scheme ≠ "" ∧ u.Host ≠ "" then u.Scheme ++ "://" ++ u.Host
  else if u.Scheme = "" ∧ u.Host = "" then u.Path
  else ""

/-- Modelled from the spec: the function `NewHTTP` (http.go is not among the sources), the operation
`build(request, response)` of the spec.  Of a request that is present it takes the method,
the `User-Agent` and `Referer` headers, the remote address, the protocol, the rendered URL and
the decimal count of the bytes of the body; of a response that is present the status code and
the decimal count of the bytes of the body; every other field keeps its zero value, so an
absent argument gives what the zero request or response gives.  The rendering of the URL is
the parameter `urlString`: the spec's rule is `specRequestURL`, `TestNewHTTP` has what the
tests of the repository want of it, and `requestURL` is the spec's rule with the one change the
tests force. -/
def NewHTTP (urlString : URL → String) (req : Option Request) (res : Option Response) :
    HTTPPayload :=
  let req := req.getD Request.zero
  let res := res.getD Response.zero
  { RequestMethod := req.Method
    RequestURL := match req.URL with
      | some u => urlString u
      | none => ""
    RequestSize := match req.Body with
      | some body => toString body.length
      | none => ""
    Status := res.StatusCode
    ResponseSize := match res.Body with
      | some body => toString body.length
      | none => ""
    UserAgent := headerGet req.Header "User-Agent"
    RemoteIP := req.RemoteAddr
    Referer := headerGet req.Header "Referer"
    Protocol := req.Proto }

/-! ## http_test.go -/

/-- One entry of the table of `TestNewHTTP`. -/
structure NewHTTPCase where
  name : String
  req : Option Request
  res : Option Response
  want : HTTPPayload

/-- The bytes of the string "12345". -/
def body12345 : List Nat := [49, 50, 51, 52, 53]

/-- The request `httptest.NewRequest("POST", "/", strings.NewReader("12345"))`: the target "/"
is the path of its URL, and the protocol and the remote address are the ones the test wants
back. -/
def simpleRequest : Request :=
  { Method := "POST", URL := some ⟨"", "", "/", ""⟩, Proto := "HTTP/1.1", Header := [],
    Body := some body12345, RemoteAddr := "192.0.2.1:1234" }

/-- The table of `TestNewHTTP`. -/
def TestNewHTTP : List NewHTTPCase :=
  [ ⟨"empty", none, none, HTTPPayload.zero⟩,
    ⟨"RequestMethod", some { Request.zero with Method := "GET" }, none,
      { HTTPPayload.zero with RequestMethod := "GET" }⟩,
    ⟨"Status", none, some { Response.zero with StatusCode := 404 },
      { HTTPPayload.zero with Status := 404 }⟩,
    ⟨"UserAgent", some { Request.zero with Header := [("User-Agent", "hello world")] }, none,
      { HTTPPayload.zero with UserAgent := "hello world" }⟩,
    ⟨"RemoteIP", some { Request.zero with RemoteAddr := "127.0.0.1" }, none,
      { HTTPPayload.zero with RemoteIP := "127.0.0.1" }⟩,
    ⟨"Referrer", some { Request.zero with Header := [("Referer", "hello universe")] }, none,
      { HTTPPayload.zero with Referer := "hello universe" }⟩,
    ⟨"Protocol", some { Request.zero with Proto := "HTTP/1.1" }, none,
      { HTTPPayload.zero with Protocol := "HTTP/1.1" }⟩,
    ⟨"RequestURL", some { Request.zero with URL := some ⟨"https", "example.com", "", ""⟩ }, none,
      { HTTPPayload.zero with RequestURL := "https://example.com" }⟩,
    ⟨"RequestSize", some { Request.zero with Body := some body12345 }, none,
      { HTTPPayload.zero with RequestSize := "5" }⟩,
    ⟨"ResponseSize", none, some { Response.zero with Body := some body12345 },
      { HTTPPayload.zero with ResponseSize := "5" }⟩,
    ⟨"simple request", some simpleRequest, none,
      { HTTPPayload.zero with
        RequestSize := "5", RequestMethod := "POST", RemoteIP := "192.0.2.1:1234",
        Protocol := "HTTP/1.1", RequestURL := "/" }⟩,
    ⟨"simple response", none, some ⟨404, some body12345⟩,
      { HTTPPayload.zero with ResponseSize := "5", Status := 404 }⟩,
    ⟨"request & response", some { Request.zero with Method := "POST", Proto := "HTTP/1.1" },
      some { Response.zero with StatusCode := 200 },
      { HTTPPayload.zero with RequestMethod := "POST", Protocol := "HTTP/1.1", Status := 200 }⟩ ]

/-- The assertion of `TestNewHTTP`, for a candidate `NewHTTP`: every entry of the table gives
the payload it wants. -/
def passesTestNewHTTP (f : Option Request → Option Response → HTTPPayload) : Prop :=
  ∀ c ∈ TestNewHTTP, f c.req c.res = c.want

instance (f : Option Request → Option Response → HTTPPayload) :
    Decidable (passesTestNewHTTP f) := by
  unfold passesTestNewHTTP; exact inferInstance

/-- The library `symZap` with `zap.Error` as the spec has it: the error field carries the
description. -/
def symZapSpec : ZapLib String Nat SymField String :=
  { symZap with Error := specZapError (fun e => e) (fun d => SymField.error (some d)) }

/-! ## Lemmas on the runtime model -/

section Lemmas

variable {E F Z Err V α : Type}

theorem getElem?_snoc_self (l : List α) (x : α) : (l ++ [x])[l.length]? = some x := by
  simp

theorem getElem?_append_of_lt (l t : List α) {a : Nat} (h : a < l.length) :
    (l ++ t)[a]? = l[a]? := by
  simp [List.getElem?_append_left h]

theorem set_snoc_self (l : List α) (x y : α) : (l ++ [x]).set l.length y = l ++ [y] := by
  induction l with
  | nil => rfl
  | cons a l ih => simp [ih]

theorem mapAt_snoc_self (store : List (GoMap V)) (m : GoMap V) :
    mapAt (store ++ [m]) (some store.length) = m := by
  simp [mapAt]

theorem mapAt_append_of_lt (store t : List (GoMap V)) {a : Nat} (h : a < store.length) :
    mapAt (store ++ t) (some a) = mapAt store (some a) := by
  simp [mapAt, List.getElem?_append_left h]

theorem mapSet_snoc_self (store : List (GoMap V)) (m : GoMap V) (k : String) (v : V) :
    mapSet (store ++ [m]) store.length k v = store ++ [m.insert k v] := by
  simp [mapSet, set_snoc_self]

theorem foldl_mapSet_snoc (store : List (GoMap V)) (es : List ((_ : String) × V)) :
    ∀ m : GoMap V, es.foldl (fun s e => mapSet s store.length e.1 e.2) (store ++ [m])
      = store ++ [insertAll m es] := by
  induction es with
  | nil => intro m; rfl
  | cons e es ih => intro m; simp only [List.foldl_cons, mapSet_snoc_self, ih]; rfl

theorem foldl_mapSet_filter_snoc (p : String → Bool) (store : List (GoMap V))
    (es : List ((_ : String) × V)) :
    ∀ m : GoMap V,
      es.foldl (fun s e => if p e.1 then mapSet s store.length e.1 e.2 else s) (store ++ [m])
        = store ++ [insertAll m (es.filter (fun e => p e.1))] := by
  induction es with
  | nil => intro m; rfl
  | cons e es ih =>
    intro m
    by_cases h : p e.1 = true
    · have hf : (e :: es).filter (fun e => p e.1) = e :: es.filter (fun e => p e.1) :=
        List.filter_cons_of_pos h
      rw [hf]
      simp only [List.foldl_cons, h, if_true, mapSet_snoc_self, ih]; rfl
    · have hf : (e :: es).filter (fun e => p e.1) = es.filter (fun e => p e.1) :=
        List.filter_cons_of_neg h
      rw [hf]
      simp only [List.foldl_cons, h, if_false]
      exact ih m

theorem lookup_insertAll (es : List ((_ : String) × V)) (hes : es.NodupKeys) (k : String) :
    ∀ m : GoMap V, (insertAll m es).lookup k = (List.dlookup k es).or (m.lookup k) := by
  induction es with
  | nil => intro m; simp [insertAll]
  | cons e es ih =>
    intro m
    obtain ⟨hk, hes'⟩ := List.nodupKeys_cons.mp hes
    have h1 : insertAll m (e :: es) = insertAll (m.insert e.1 e.2) es := rfl
    rw [h1, ih hes']
    by_cases hke : k = e.1
    · subst hke
      have : List.dlookup e.1 es = none := List.dlookup_eq_none.mpr hk
      obtain ⟨a, b⟩ := e
      simp [this, List.dlookup_cons_eq]
    · rw [List.dlookup_cons_ne _ _ hke, AList.lookup_insert_ne hke]

theorem dlookup_filter_key (p : String → Bool) (k : String) (es : List ((_ : String) × V)) :
    List.dlookup k (es.filter (fun e => p e.1)) = if p k then List.dlookup k es else none := by
  induction es with
  | nil => simp
  | cons e es ih =>
    obtain ⟨a, b⟩ := e
    by_cases ha : p a = true
    · rw [List.filter_cons_of_pos (by simpa using ha)]
      by_cases hk : k = a
      · subst hk; simp [List.dlookup_cons_eq, ha]
      · rw [List.dlookup_cons_ne _ _ hk, List.dlookup_cons_ne _ _ hk, ih]
    · rw [List.filter_cons_of_neg (by simpa using ha)]
      by_cases hk : k = a
      · subst hk; simp [ih, ha]
      · rw [List.dlookup_cons_ne _ _ hk, ih]

theorem nodupKeys_filter (p : (_ : String) × V → Bool) {es : List ((_ : String) × V)}
    (h : es.NodupKeys) : (es.filter p).NodupKeys :=
  List.NodupKeys.sublist (List.filter_sublist es) h

/-- Ranging over a map in any order and assigning every entry yields the entries of the map. -/
theorem lookup_insertAll_range (ρ : RangeOrder) (src m : GoMap V) (k : String) :
    (insertAll m (ρ.order src.entries)).lookup k = (src.lookup k).or (m.lookup k) := by
  have hp := ρ.perm src.entries
  have hnd : (ρ.order src.entries).NodupKeys := (List.perm_nodupKeys hp).mpr src.nodupKeys
  rw [lookup_insertAll _ hnd, List.perm_dlookup k hnd src.nodupKeys hp]
  rfl

theorem foldl_setLabel (a : Nat) (es : List ((_ : String) × String)) :
    ∀ w : World E F Z, es.foldl (fun w e => w.setLabel a e.1 e.2) w
      = { w with labelMaps := es.foldl (fun s e => mapSet s a e.1 e.2) w.labelMaps } := by
  induction es with
  | nil => intro w; rfl
  | cons e es ih => intro w; rw [List.foldl_cons, ih]; rfl

theorem foldl_setField (a : Nat) (es : List ((_ : String) × F)) :
    ∀ w : World E F Z, es.foldl (fun w e => w.setField a e.1 e.2) w
      = { w with fieldMaps := es.foldl (fun s e => mapSet s a e.1 e.2) w.fieldMaps } := by
  induction es with
  | nil => intro w; rfl
  | cons e es ih => intro w; rw [List.foldl_cons, ih]; rfl

theorem foldl_setField_filter (p : String → Bool) (a : Nat) (es : List ((_ : String) × F)) :
    ∀ w : World E F Z, es.foldl (fun w e => if p e.1 then w.setField a e.1 e.2 else w) w
      = { w with fieldMaps :=
            es.foldl (fun s e => if p e.1 then mapSet s a e.1 e.2 else s) w.fieldMaps } := by
  induction es with
  | nil => intro w; rfl
  | cons e es ih =>
    intro w
    rw [List.foldl_cons, ih]
    by_cases h : p e.1 = true
    · simp only [List.foldl_cons, h, if_true]; rfl
    · have h' : p e.1 = false := by simpa using h
      simp only [List.foldl_cons, h']
      rfl

theorem copyLabelMap_eq (w : World E F Z) (l : Logger E) :
    copyLabelMap w l = (w.labelMaps.length,
      { w with
        labelMaps := w.labelMaps ++
          [insertAll ∅ ((w.sched w.ranges).order (w.labelMapAt l.labelMap).entries)]
        ranges := w.ranges + 1 }) := by
  simp only [copyLabelMap, World.makeLabelMap, World.rangeOver, foldl_setLabel,
    foldl_mapSet_snoc]

theorem copyFieldMap_eq (w : World E F Z) (l : Logger E) :
    copyFieldMap w l = (w.fieldMaps.length,
      { w with
        fieldMaps := w.fieldMaps ++
          [insertAll ∅ ((w.sched w.ranges).order (w.fieldMapAt l.fieldMap).entries)]
        ranges := w.ranges + 1 }) := by
  simp only [copyFieldMap, World.makeFieldMap, World.rangeOver, foldl_setField,
    foldl_mapSet_snoc]

theorem writeCells_fresh (pre rest : List Z) (x : Z) :
    writeCells (pre ++ rest) pre.length [x] = (pre ++ [x]) ++ rest.drop 1 := by
  simp [writeCells, List.drop_append]

/-- Appending one by one into a new array that is large enough fills it in place. -/
theorem foldl_append_fresh (g : α → Z) (xs : List α) :
    ∀ (w : World E F Z) (arrs : List (List Z)) (pre rest : List Z) (n c : Nat),
      w.arrays = arrs ++ [pre ++ rest] → n = pre.length → c = pre.length + rest.length →
      xs.length ≤ rest.length →
      xs.foldl (fun (sw : Slice × World E F Z) x => sw.2.append sw.1 [g x])
          (⟨some arrs.length, n, c⟩, w)
        = (⟨some arrs.length, n + xs.length, c⟩,
            { w with arrays := arrs ++ [pre ++ xs.map g ++ rest.drop xs.length] }) := by
  induction xs with
  | nil =>
    intro w arrs pre rest n c hw hn hc _
    simp only [List.foldl_nil, List.length_nil, Nat.add_zero, List.map_nil, List.append_nil,
      List.drop_zero]
    rw [← hw]
  | cons x xs ih =>
    intro w arrs pre rest n c hw hn hc hlen
    have hpos : 0 < rest.length := by simp at hlen; omega
    have hstep : w.append ⟨some arrs.length, n, c⟩ [g x]
        = (⟨some arrs.length, n + 1, c⟩,
            { w with arrays := arrs ++ [(pre ++ [g x]) ++ rest.drop 1] }) := by
      have hle : n + 1 ≤ c := by omega
      simp only [World.append, List.length_singleton, hle, if_true, hw, getElem?_snoc_self,
        set_snoc_self]
      rw [hn, writeCells_fresh pre rest (g x)]
    rw [List.foldl_cons, hstep]
    rw [ih _ arrs (pre ++ [g x]) (rest.drop 1) (n + 1) c rfl (by simp [hn])
      (by simp; omega) (by simp at hlen ⊢; omega)]
    simp [Nat.add_comm, Nat.add_left_comm, List.drop_drop]

theorem RangeOrder.length_order (ρ : RangeOrder) (l : List α) : (ρ.order l).length = l.length :=
  (ρ.perm l).length_eq

theorem generateLabelList_eq [Inhabited Z] (zap : ZapLib E F Z Err) (w : World E F Z)
    (r : Option Nat) :
    generateLabelList zap w r
      = (⟨some w.arrays.length, (w.labelMapAt r).entries.length,
            (w.labelMapAt r).entries.length⟩,
          { w with
            arrays := w.arrays ++
              [((w.sched w.ranges).order (w.labelMapAt r).entries).map
                (fun e => zap.Label e.1 e.2)]
            ranges := w.ranges + 1 }) := by
  have hlen := (w.sched w.ranges).length_order (w.labelMapAt r).entries
  simp only [generateLabelList, World.makeSlice, World.rangeOver]
  refine (foldl_append_fresh (fun e : (_ : String) × String => zap.Label e.1 e.2) _ _ w.arrays []
    (List.replicate (w.labelMapAt r).entries.length default) 0
    (w.labelMapAt r).entries.length rfl rfl (by simp) (by simp [hlen])).trans ?_
  simp [hlen]

theorem generateFieldList_eq [Inhabited Z] (zap : ZapLib E F Z Err) (w : World E F Z)
    (r : Option Nat) :
    generateFieldList zap w r
      = (⟨some w.arrays.length, (w.fieldMapAt r).entries.length,
            (w.fieldMapAt r).entries.length⟩,
          { w with
            arrays := w.arrays ++
              [((w.sched w.ranges).order (w.fieldMapAt r).entries).map
                (fun e => zap.Any e.1 e.2)]
            ranges := w.ranges + 1 }) := by
  have hlen := (w.sched w.ranges).length_order (w.fieldMapAt r).entries
  simp only [generateFieldList, World.makeSlice, World.rangeOver]
  refine (foldl_append_fresh (fun e : (_ : String) × F => zap.Any e.1 e.2) _ _ w.arrays []
    (List.replicate (w.fieldMapAt r).entries.length default) 0
    (w.fieldMapAt r).entries.length rfl rfl (by simp) (by simp [hlen])).trans ?_
  simp [hlen]

theorem length_sliceElems_le (arrays : List (List Z)) (s : Slice) :
    (sliceElems arrays s).length ≤ s.len := by
  unfold sliceElems
  cases s.arr with
  | none => simp
  | some a => simp [List.length_take]

theorem copyList_eq [Inhabited Z] (w : World E F Z) (s : Slice) :
    copyList w s
      = (⟨some w.arrays.length, (w.elems s).length, s.len⟩,
          { w with
            arrays := w.arrays ++
              [w.elems s ++ (List.replicate s.len default).drop (w.elems s).length] }) := by
  have hle := length_sliceElems_le w.arrays s
  simp only [copyList, World.makeSlice]
  refine (foldl_append_fresh (fun x : Z => x) _ _ w.arrays [] (List.replicate s.len default) 0
    s.len rfl rfl (by simp) (by simpa [World.elems] using hle)).trans ?_
  simp

theorem lookup_insertAll_filter_range (p : String → Bool) (ρ : RangeOrder) (src m : GoMap V)
    (k : String) :
    (insertAll m ((ρ.order src.entries).filter (fun e => p e.1))).lookup k
      = (if p k then src.lookup k else none).or (m.lookup k) := by
  have hp := ρ.perm src.entries
  have hnd : (ρ.order src.entries).NodupKeys := (List.perm_nodupKeys hp).mpr src.nodupKeys
  rw [lookup_insertAll _ (nodupKeys_filter _ hnd), dlookup_filter_key,
    List.perm_dlookup k hnd src.nodupKeys hp]
  rfl

theorem WithLabel_derived [Inhabited Z] (zap : ZapLib E F Z Err) (w : World E F Z)
    (l : Logger E) (key value : String) :
    LabelDerived zap w l
      (fun k => if k = key then some value else (w.labelMapAt l.labelMap).lookup k)
      (WithLabel zap w l key value) := by
  simp only [WithLabel, copyLabelMap_eq, copyFieldMap_eq, copyList_eq, generateLabelList_eq,
    World.setLabel, World.labelMapAt, World.fieldMapAt, World.elems, mapSet_snoc_self,
    mapAt_snoc_self]
  refine ⟨_, _, _, rfl, rfl, List.append_assoc _ _ _, rfl, rfl, ?_, ?_, ?_, ?_⟩
  · simp only [List.length_map, RangeOrder.length_order, List.length_append,
      List.length_singleton]
  · intro k
    by_cases hk : k = key
    · subst hk; simp
    · rw [AList.lookup_insert_ne hk, lookup_insertAll_range]; simp [hk]
  · exact ((w.sched _).perm _).map _
  · intro k
    rw [lookup_insertAll_range]; simp; rfl

theorem WithLabels_derived [Inhabited Z] (zap : ZapLib E F Z Err) (w : World E F Z)
    (l : Logger E) (labels : GoMap String) :
    LabelDerived zap w l
      (fun k => (labels.lookup k).or ((w.labelMapAt l.labelMap).lookup k))
      (WithLabels zap w l labels) := by
  simp only [WithLabels, copyLabelMap_eq, copyFieldMap_eq, copyList_eq, generateLabelList_eq,
    World.rangeOver, foldl_setLabel, foldl_mapSet_snoc,
    World.labelMapAt, World.fieldMapAt, World.elems, mapAt_snoc_self]
  refine ⟨_, _, _, rfl, rfl, List.append_assoc _ _ _, rfl, rfl, ?_, ?_, ?_, ?_⟩
  · simp only [List.length_map, RangeOrder.length_order, List.length_append,
      List.length_singleton]
  · intro k
    rw [lookup_insertAll_range, lookup_insertAll_range]; simp
  · exact ((w.sched _).perm _).map _
  · intro k
    rw [lookup_insertAll_range]; simp; rfl

theorem WithField_derived [Inhabited Z] (zap : ZapLib E F Z Err) (w : World E F Z)
    (l : Logger E) (key : String) (value : F) :
    FieldDerived zap w l
      (fun k => if k = key ∧ isDefaultKey key = false then some value
        else (w.fieldMapAt l.fieldMap).lookup k)
      (WithField zap w l key value) := by
  by_cases hd : isDefaultKey key = true
  · simp only [WithField, copyLabelMap_eq, copyFieldMap_eq, copyList_eq, generateFieldList_eq,
      hd, Bool.not_true, Bool.false_eq_true, if_false,
      World.labelMapAt, World.fieldMapAt, World.elems, mapAt_snoc_self]
    refine ⟨_, _, _, rfl, rfl, List.append_assoc _ _ _, rfl, rfl, ?_, ?_, ?_, ?_⟩
    · simp only [List.length_map, RangeOrder.length_order, List.length_append,
        List.length_singleton]
    · intro k
      rw [lookup_insertAll_range]; simp
    · exact ((w.sched _).perm _).map _
    · intro k
      rw [lookup_insertAll_range]; simp; rfl
  · have hd' : isDefaultKey key = false := by simpa using hd
    simp only [WithField, copyLabelMap_eq, copyFieldMap_eq, copyList_eq, generateFieldList_eq,
      hd', Bool.not_false, if_true, World.setField, mapSet_snoc_self,
      World.labelMapAt, World.fieldMapAt, World.elems, mapAt_snoc_self]
    refine ⟨_, _, _, rfl, rfl, List.append_assoc _ _ _, rfl, rfl, ?_, ?_, ?_, ?_⟩
    · simp only [List.length_map, RangeOrder.length_order, List.length_append,
        List.length_singleton]
    · intro k
      by_cases hk : k = key
      · subst hk; simp
      · rw [AList.lookup_insert_ne hk, lookup_insertAll_range]; simp [hk]
    · exact ((w.sched _).perm _).map _
    · intro k
      rw [lookup_insertAll_range]; simp; rfl

theorem WithFields_derived [Inhabited Z] (zap : ZapLib E F Z Err) (w : World E F Z)
    (l : Logger E) (fields : GoMap F) :
    FieldDerived zap w l
      (fun k => (if isDefaultKey k then none else fields.lookup k).or
        ((w.fieldMapAt l.fieldMap).lookup k))
      (WithFields zap w l fields) := by
  simp only [WithFields, copyLabelMap_eq, copyFieldMap_eq, copyList_eq, generateFieldList_eq,
    World.rangeOver, foldl_setField_filter (fun k => !isDefaultKey k),
    foldl_mapSet_filter_snoc (fun k => !isDefaultKey k),
    World.labelMapAt, World.fieldMapAt, World.elems, mapAt_snoc_self]
  refine ⟨_, _, _, rfl, rfl, List.append_assoc _ _ _, rfl, rfl, ?_, ?_, ?_, ?_⟩
  · simp only [List.length_map, RangeOrder.length_order, List.length_append,
      List.length_singleton]
  · intro k
    rw [lookup_insertAll_filter_range (fun k => !isDefaultKey k), lookup_insertAll_range]
    cases hk : isDefaultKey k <;> simp [hk]
  · exact ((w.sched _).perm _).map _
  · intro k
    rw [lookup_insertAll_range]; simp; rfl

/-! ### Frame: what an extension of the world leaves alone -/

theorem mapAt_mono {store store' : List (GoMap V)} {r : Option Nat}
    (hr : validRef store r) (hp : store <+: store') : mapAt store' r = mapAt store r := by
  obtain ⟨t, rfl⟩ := hp
  cases r with
  | none => rfl
  | some a => exact mapAt_append_of_lt store t hr

theorem validRef_mono {store store' : List α} {r : Option Nat}
    (hr : validRef store r) (hp : store <+: store') : validRef store' r := by
  cases r with
  | none => trivial
  | some a => exact Nat.lt_of_lt_of_le hr hp.length_le

theorem cellsOf_mono {arrays arrays' : List (List Z)} {s : Slice}
    (hp : arrays <+: arrays') (hs : 0 < (cellsOf arrays s).length) :
    cellsOf arrays' s = cellsOf arrays s := by
  obtain ⟨t, rfl⟩ := hp
  unfold cellsOf at hs ⊢
  cases h : s.arr with
  | none => rfl
  | some a =>
    rw [h] at hs
    by_cases ha : a < arrays.length
    · simp [List.getElem?_append_left ha]
    · have : arrays[a]? = none := List.getElem?_eq_none (Nat.le_of_not_lt ha)
      simp [this] at hs

theorem sliceElems_eq_take (arrays : List (List Z)) (s : Slice) :
    sliceElems arrays s = (cellsOf arrays s).take s.len := by
  unfold sliceElems cellsOf
  cases s.arr <;> simp

theorem World.ValidSlice.mono {w : World E F Z} {arrays' : List (List Z)} {s : Slice}
    (hs : w.ValidSlice s) (hp : w.arrays <+: arrays') :
    s.len ≤ s.cap ∧ s.cap ≤ (cellsOf arrays' s).length ∧
      sliceElems arrays' s = sliceElems w.arrays s := by
  obtain ⟨h1, h2⟩ := hs
  by_cases h0 : 0 < (cellsOf w.arrays s).length
  · rw [sliceElems_eq_take, sliceElems_eq_take, cellsOf_mono hp h0]
    exact ⟨h1, h2, rfl⟩
  · have hc : s.cap = 0 := by omega
    have hl : s.len = 0 := by omega
    refine ⟨h1, by omega, ?_⟩
    rw [sliceElems_eq_take, sliceElems_eq_take, hl]
    simp

theorem World.ValidSlice.length_elems {w : World E F Z} {s : Slice} (hs : w.ValidSlice s) :
    (w.elems s).length = s.len := by
  obtain ⟨h1, h2⟩ := hs
  simp only [World.elems, sliceElems_eq_take, List.length_take]
  omega

theorem World.Extends.refl (w : World E F Z) : w.Extends w :=
  ⟨List.prefix_refl _, List.prefix_refl _, List.prefix_refl _, List.prefix_refl _⟩

theorem World.Extends.trans {w₁ w₂ w₃ : World E F Z} (h : w₁.Extends w₂) (h' : w₂.Extends w₃) :
    w₁.Extends w₃ :=
  ⟨h.1.trans h'.1, h.2.1.trans h'.2.1, h.2.2.1.trans h'.2.2.1, h.2.2.2.trans h'.2.2.2⟩

/-- A live logger reads the same in every extension of the world. -/
theorem World.Extends.frame {w w' : World E F Z} (h : w.Extends w') {l : Logger E}
    (hl : w.Live l) :
    w'.Live l ∧ w'.labelMapAt l.labelMap = w.labelMapAt l.labelMap ∧
      w'.elems l.labelList = w.elems l.labelList ∧
      w'.fieldMapAt l.fieldMap = w.fieldMapAt l.fieldMap ∧
      w'.elems l.fieldList = w.elems l.fieldList := by
  obtain ⟨hL, hF, hA, _⟩ := h
  obtain ⟨h1, h2, h3, h4⟩ := hl
  have e3 := h3.mono hA
  have e4 := h4.mono hA
  exact ⟨⟨validRef_mono h1 hL, validRef_mono h2 hF, ⟨e3.1, e3.2.1⟩, ⟨e4.1, e4.2.1⟩⟩,
    mapAt_mono h1 hL, e3.2.2, mapAt_mono h2 hF, e4.2.2⟩

theorem getElem?_append_pair_fst (l : List α) (x y : α) : (l ++ [x, y])[l.length]? = some x := by
  rw [List.getElem?_append_right (Nat.le_refl _)]; simp

theorem getElem?_append_pair_snd (l : List α) (x y : α) :
    (l ++ [x, y])[l.length + 1]? = some y := by
  rw [List.getElem?_append_right (Nat.le_add_right _ _)]; simp

theorem sliceElems_at {arrays : List (List Z)} {a n c : Nat} {cells : List Z}
    (h : arrays[a]? = some cells) : sliceElems arrays ⟨some a, n, c⟩ = cells.take n := by
  simp [sliceElems, h]

theorem cellsOf_at {arrays : List (List Z)} {a n c : Nat} {cells : List Z}
    (h : arrays[a]? = some cells) : cellsOf arrays ⟨some a, n, c⟩ = cells := by
  simp [cellsOf, h]

theorem length_copied [Inhabited Z] (fe : List Z) (n : Nat) (h : fe.length ≤ n) :
    (fe ++ (List.replicate n (default : Z)).drop fe.length).length = n := by
  simp; omega

/-- What `WithLabel` and `WithLabels` do, read off `LabelDerived`. -/
theorem LabelDerived.label_facts [Inhabited Z] {zap : ZapLib E F Z Err} {w : World E F Z}
    {l : Logger E} {look : String → Option String} {r : Logger E × World E F Z}
    (h : LabelDerived zap w l look r) :
    w.Extends r.2 ∧ r.2.Live r.1 ∧ r.1.logger = l.logger ∧
      r.1.labelList.len = r.1.labelList.cap ∧
      (∀ k, (r.2.labelMapAt r.1.labelMap).lookup k = look k) ∧
      (r.2.elems r.1.labelList).Perm
        ((r.2.labelMapAt r.1.labelMap).entries.map (fun e => zap.Label e.1 e.2)) ∧
      (∀ k, (r.2.fieldMapAt r.1.fieldMap).lookup k = (w.fieldMapAt l.fieldMap).lookup k) ∧
      (w.ValidSlice l.fieldList →
        r.2.elems r.1.fieldList = w.elems l.fieldList ∧
          r.1.fieldList.len = r.1.fieldList.cap) := by
  obtain ⟨l', w'⟩ := r
  obtain ⟨lm, fm, la, hLM, hFM, hA, hC, -, hr, hlook, hperm, hfm⟩ := h
  simp only at hLM hFM hA hC hr
  subst hr
  have hle := length_sliceElems_le (w.arrays ++ [la]) l.fieldList
  have hlab : w'.labelMapAt (some w.labelMaps.length) = lm := by
    simp [World.labelMapAt, hLM, mapAt]
  have hfld : w'.fieldMapAt (some w.fieldMaps.length) = fm := by
    simp [World.fieldMapAt, hFM, mapAt]
  have h0 := getElem?_append_pair_fst w.arrays la
    (sliceElems (w.arrays ++ [la]) l.fieldList ++ (List.replicate l.fieldList.len default).drop
      (sliceElems (w.arrays ++ [la]) l.fieldList).length)
  have h1 := getElem?_append_pair_snd w.arrays la
    (sliceElems (w.arrays ++ [la]) l.fieldList ++ (List.replicate l.fieldList.len default).drop
      (sliceElems (w.arrays ++ [la]) l.fieldList).length)
  rw [← hA] at h0 h1
  have hla : w'.elems ⟨some w.arrays.length, la.length, la.length⟩ = la := by
    rw [World.elems, sliceElems_at h0, List.take_length]
  have hfa : w'.elems ⟨some (w.arrays.length + 1),
      (sliceElems (w.arrays ++ [la]) l.fieldList).length, l.fieldList.len⟩
        = sliceElems (w.arrays ++ [la]) l.fieldList := by
    rw [World.elems, sliceElems_at h1, List.take_left]
  refine ⟨⟨⟨_, hLM.symm⟩, ⟨_, hFM.symm⟩, ⟨_, hA.symm⟩, ⟨[], by simp [hC]⟩⟩, ?_, rfl, rfl, ?_, ?_,
    ?_, ?_⟩
  · refine ⟨?_, ?_, ⟨Nat.le_refl _, ?_⟩, ⟨hle, ?_⟩⟩
    · simp [validRef, hLM]
    · simp [validRef, hFM]
    · rw [cellsOf_at h0]
    · rw [cellsOf_at h1, length_copied _ _ hle]
  · intro k; simp only [hlab]; exact hlook k
  · simp only [hlab, hla]; exact hperm
  · intro k; simp only [hfld]; exact hfm k
  · intro hv
    have e := (hv.mono (List.prefix_append w.arrays [la])).2.2
    simp only [hfa]
    exact ⟨e, by rw [e]; exact hv.length_elems⟩

/-- What `WithField` and `WithFields` do, read off `FieldDerived`. -/
theorem FieldDerived.field_facts [Inhabited Z] {zap : ZapLib E F Z Err} {w : World E F Z}
    {l : Logger E} {look : String → Option F} {r : Logger E × World E F Z}
    (h : FieldDerived zap w l look r) :
    w.Extends r.2 ∧ r.2.Live r.1 ∧ r.1.logger = l.logger ∧
      r.1.fieldList.len = r.1.fieldList.cap ∧
      (∀ k, (r.2.fieldMapAt r.1.fieldMap).lookup k = look k) ∧
      (r.2.elems r.1.fieldList).Perm
        ((r.2.fieldMapAt r.1.fieldMap).entries.map (fun e => zap.Any e.1 e.2)) ∧
      (∀ k, (r.2.labelMapAt r.1.labelMap).lookup k = (w.labelMapAt l.labelMap).lookup k) ∧
      (w.ValidSlice l.labelList →
        r.2.elems r.1.labelList = w.elems l.labelList ∧
          r.1.labelList.len = r.1.labelList.cap) := by
  obtain ⟨l', w'⟩ := r
  obtain ⟨lm, fm, fa, hLM, hFM, hA, hC, -, hr, hlook, hperm, hlm⟩ := h
  simp only at hLM hFM hA hC hr
  subst hr
  have hle := length_sliceElems_le (w.arrays ++ [fa]) l.labelList
  have hlab : w'.labelMapAt (some w.labelMaps.length) = lm := by
    simp [World.labelMapAt, hLM, mapAt]
  have hfld : w'.fieldMapAt (some w.fieldMaps.length) = fm := by
    simp [World.fieldMapAt, hFM, mapAt]
  have h0 := getElem?_append_pair_fst w.arrays fa
    (sliceElems (w.arrays ++ [fa]) l.labelList ++ (List.replicate l.labelList.len default).drop
      (sliceElems (w.arrays ++ [fa]) l.labelList).length)
  have h1 := getElem?_append_pair_snd w.arrays fa
    (sliceElems (w.arrays ++ [fa]) l.labelList ++ (List.replicate l.labelList.len default).drop
      (sliceElems (w.arrays ++ [fa]) l.labelList).length)
  rw [← hA] at h0 h1
  have hfa : w'.elems ⟨some w.arrays.length, fa.length, fa.length⟩ = fa := by
    rw [World.elems, sliceElems_at h0, List.take_length]
  have hla : w'.elems ⟨some (w.arrays.length + 1),
      (sliceElems (w.arrays ++ [fa]) l.labelList).length, l.labelList.len⟩
        = sliceElems (w.arrays ++ [fa]) l.labelList := by
    rw [World.elems, sliceElems_at h1, List.take_left]
  refine ⟨⟨⟨_, hLM.symm⟩, ⟨_, hFM.symm⟩, ⟨_, hA.symm⟩, ⟨[], by simp [hC]⟩⟩, ?_, rfl, rfl, ?_, ?_,
    ?_, ?_⟩
  · refine ⟨?_, ?_, ⟨hle, ?_⟩, ⟨Nat.le_refl _, ?_⟩⟩
    · simp [validRef, hLM]
    · simp [validRef, hFM]
    · rw [cellsOf_at h1, length_copied _ _ hle]
    · rw [cellsOf_at h0]
  · intro k; simp only [hfld]; exact hlook k
  · simp only [hfld, hfa]; exact hperm
  · intro k; simp only [hlab]; exact hlm k
  · intro hv
    have e := (hv.mono (List.prefix_append w.arrays [fa])).2.2
    simp only [hla]
    exact ⟨e, by rw [e]; exact hv.length_elems⟩

theorem entries_perm_of_lookup_eq {m₁ m₂ : GoMap V} (h : ∀ k, m₁.lookup k = m₂.lookup k) :
    m₁.entries.Perm m₂.entries :=
  List.lookup_ext m₁.nodupKeys m₂.nodupKeys (fun x y => by
    have := h x
    simp only [AList.lookup] at this
    rw [this])

/-- The elements of the slice `append` returns. -/
theorem World.elems_append {w : World E F Z} {s : Slice} (hv : w.ValidSlice s) (xs : List Z) :
    (w.append s xs).2.elems (w.append s xs).1 = w.elems s ++ xs := by
  obtain ⟨h1, h2⟩ := hv
  unfold World.append
  by_cases hfit : s.len + xs.length ≤ s.cap
  · simp only [hfit, if_true]
    cases ha : s.arr with
    | none =>
      simp only [cellsOf, ha, List.length_nil] at h2
      have hx : xs = [] := List.length_eq_zero.mp (by omega)
      simp [World.elems, sliceElems, ha, hx]
    | some a =>
      simp only [cellsOf, ha] at h2
      cases hc : w.arrays[a]? with
      | none =>
        simp only [hc, Option.getD_none, List.length_nil] at h2
        have hx : xs = [] := List.length_eq_zero.mp (by omega)
        have hl : s.len = 0 := by omega
        simp [World.elems, sliceElems, ha, hx, hl]
      | some cells =>
        simp only [hc, Option.getD_some] at h2
        have hlt : a < w.arrays.length := by
          rcases Nat.lt_or_ge a w.arrays.length with h | h
          · exact h
          · rw [List.getElem?_eq_none h] at hc; cases hc
        have hget : (w.arrays.set a (writeCells cells s.len xs))[a]?
            = some (writeCells cells s.len xs) := by
          simp [hlt]
        have htake : (cells.take s.len).length = s.len := by
          rw [List.length_take]; omega
        simp only [World.elems, hc]
        rw [sliceElems_at hget]
        simp only [sliceElems, ha, hc, Option.getD_some, writeCells]
        rw [List.append_assoc, List.take_append_eq_append_take, htake]
        simp
  · simp only [hfit, if_false]
    have hlen : (w.elems s ++ xs).length = s.len + xs.length := by
      rw [List.length_append, World.ValidSlice.length_elems ⟨h1, h2⟩]
    simp only [World.elems] at hlen ⊢
    rw [sliceElems_at (getElem?_snoc_self _ _), ← hlen, List.take_length]

/-- Appending to a slice that is full allocates: every object of the world stays as it is. -/
theorem World.append_full (w : World E F Z) {s : Slice} (hfull : s.len = s.cap) (x : Z)
    (xs : List Z) :
    (w.append s (x :: xs)).2.labelMaps = w.labelMaps ∧
      (w.append s (x :: xs)).2.fieldMaps = w.fieldMaps ∧
      w.arrays <+: (w.append s (x :: xs)).2.arrays ∧
      (w.append s (x :: xs)).2.calls = w.calls := by
  have hfit : ¬ s.len + (x :: xs).length ≤ s.cap := by simp; omega
  unfold World.append
  rw [if_neg hfit]
  exact ⟨rfl, rfl, List.prefix_append _ _, rfl⟩

theorem World.emit_extends (w : World E F Z) (engine : E) (level : Level) (msg : String)
    (fields : Slice) : w.Extends (w.emit engine level msg fields) :=
  ⟨List.prefix_refl _, List.prefix_refl _, List.prefix_refl _, List.prefix_append _ _⟩

theorem Info_eq (zap : ZapLib E F Z Err) (w : World E F Z) (l : Logger E) (msg : String) :
    Info zap w l msg
      = (w.append l.fieldList [zap.Labels (w.elems l.labelList)]).2.emit l.logger Level.info msg
          (w.append l.fieldList [zap.Labels (w.elems l.labelList)]).1 := rfl

theorem Error_eq (zap : ZapLib E F Z Err) (w : World E F Z) (l : Logger E) (msg : String)
    (err : Option Err) :
    Error zap w l msg err
      = (w.append l.fieldList [zap.Error err, zap.Labels (w.elems l.labelList)]).2.emit l.logger
          Level.error msg
          (w.append l.fieldList [zap.Error err, zap.Labels (w.elems l.labelList)]).1 := rfl

theorem Info_extends (zap : ZapLib E F Z Err) {w : World E F Z} {l : Logger E}
    (hfull : l.fieldList.len = l.fieldList.cap) (msg : String) : w.Extends (Info zap w l msg) := by
  obtain ⟨h1, h2, h3, h4⟩ := World.append_full w hfull (zap.Labels (w.elems l.labelList)) []
  rw [Info_eq]
  refine World.Extends.trans ?_ (World.emit_extends _ _ _ _ _)
  exact ⟨by rw [h1], by rw [h2], h3, by rw [h4]⟩

theorem Error_extends (zap : ZapLib E F Z Err) {w : World E F Z} {l : Logger E}
    (hfull : l.fieldList.len = l.fieldList.cap) (msg : String) (err : Option Err) :
    w.Extends (Error zap w l msg err) := by
  obtain ⟨h1, h2, h3, h4⟩ := World.append_full w hfull (zap.Error err)
    [zap.Labels (w.elems l.labelList)]
  rw [Error_eq]
  refine World.Extends.trans ?_ (World.emit_extends _ _ _ _ _)
  exact ⟨by rw [h1], by rw [h2], h3, by rw [h4]⟩

theorem NewLogger_extends (zap : ZapLib E F Z Err) (w : World E F Z) (serviceName : String) :
    w.Extends (NewLogger zap w serviceName).2 := by
  simp only [NewLogger]
  split
  · exact World.Extends.refl w
  · exact ⟨List.prefix_append _ _, List.prefix_append _ _, List.prefix_refl _,
      List.prefix_refl _⟩

/-- The logger `NewLogger` returns: the engine, two new empty maps, two nil slices. -/
theorem NewLogger_some (zap : ZapLib E F Z Err) (w : World E F Z) (serviceName : String)
    {l : Logger E} {err : Option Err} (h : (NewLogger zap w serviceName).1 = (some l, err)) :
    (NewLogger zap w serviceName).2.labelMaps = w.labelMaps ++ [∅] ∧
      (NewLogger zap w serviceName).2.fieldMaps = w.fieldMaps ++ [∅] ∧
      l.labelMap = some w.labelMaps.length ∧ l.fieldMap = some w.fieldMaps.length ∧
      l.labelList = Slice.nil ∧ l.fieldList = Slice.nil := by
  simp only [NewLogger] at h ⊢
  split at h
  · simp at h
  · rename_i eng hz
    simp only [World.makeLabelMap, World.makeFieldMap, Prod.mk.injEq, Option.some.injEq] at h
    obtain ⟨rfl, -⟩ := h
    simp [hz, World.makeLabelMap, World.makeFieldMap]

theorem WithCall.apply_extends [Inhabited Z] (zap : ZapLib E F Z Err) (w : World E F Z)
    (l : Logger E) (c : WithCall F) : w.Extends (c.apply zap w l).2 := by
  cases c with
  | withLabel key value => exact (WithLabel_derived zap w l key value).label_facts.1
  | withLabels labels => exact (WithLabels_derived zap w l labels).label_facts.1
  | withField key value => exact (WithField_derived zap w l key value).field_facts.1
  | withFields fields => exact (WithFields_derived zap w l fields).field_facts.1

theorem Consistent.of_extends [Inhabited Z] {zap : ZapLib E F Z Err} {w w' : World E F Z}
    {l : Logger E} (h : Consistent zap w l) (he : w.Extends w') : Consistent zap w' l := by
  obtain ⟨hl, h1, h2, h3, h4, h5⟩ := h
  obtain ⟨hl', e1, e2, e3, e4⟩ := he.frame hl
  refine ⟨hl', h1, h2, ?_, ?_, ?_⟩
  · rw [e1, e2]; exact h3
  · rw [e3, e4]; exact h4
  · rw [e3]; exact h5

theorem Consistent.of_labelDerived [Inhabited Z] {zap : ZapLib E F Z Err} {w : World E F Z}
    {l : Logger E} {look : String → Option String} {r : Logger E × World E F Z}
    (h : Consistent zap w l) (hd : LabelDerived zap w l look r) : Consistent zap r.2 r.1 := by
  obtain ⟨hl, -, -, -, h4, h5⟩ := h
  obtain ⟨-, f2, -, f4, -, f6, f7, f8⟩ := hd.label_facts
  obtain ⟨g1, g2⟩ := f8 hl.2.2.2
  refine ⟨f2, f4, g2, f6, ?_, ?_⟩
  · rw [g1]
    exact h4.trans ((entries_perm_of_lookup_eq f7).symm.map _)
  · intro k hk
    rw [f7 k]; exact h5 k hk

theorem Consistent.of_fieldDerived [Inhabited Z] {zap : ZapLib E F Z Err} {w : World E F Z}
    {l : Logger E} {look : String → Option F} {r : Logger E × World E F Z}
    (h : Consistent zap w l) (hd : FieldDerived zap w l look r)
    (hlook : ∀ k, isDefaultKey k = true → look k = none) : Consistent zap r.2 r.1 := by
  obtain ⟨hl, -, -, h3, -, -⟩ := h
  obtain ⟨-, f2, -, f4, f5, f6, f7, f8⟩ := hd.field_facts
  obtain ⟨g1, g2⟩ := f8 hl.2.2.1
  refine ⟨f2, g2, f4, ?_, f6, ?_⟩
  · rw [g1]
    exact h3.trans ((entries_perm_of_lookup_eq f7).symm.map _)
  · intro k hk
    rw [f5 k]; exact hlook k hk

theorem Consistent.apply [Inhabited Z] {zap : ZapLib E F Z Err} {w : World E F Z}
    {l : Logger E} (h : Consistent zap w l) (c : WithCall F) :
    Consistent zap (c.apply zap w l).2 (c.apply zap w l).1 := by
  cases c with
  | withLabel key value => exact h.of_labelDerived (WithLabel_derived zap w l key value)
  | withLabels labels => exact h.of_labelDerived (WithLabels_derived zap w l labels)
  | withField key value =>
    refine h.of_fieldDerived (WithField_derived zap w l key value) (fun k hk => ?_)
    by_cases hkk : k = key
    · subst hkk; simp [hk, h.2.2.2.2.2 k hk]
    · simp [hkk, h.2.2.2.2.2 k hk]
  | withFields fields =>
    refine h.of_fieldDerived (WithFields_derived zap w l fields) (fun k hk => ?_)
    simp [hk, h.2.2.2.2.2 k hk]

/-- Every reachable logger is consistent. -/
theorem Reachable.consistent [Inhabited Z] {zap : ZapLib E F Z Err} {w : World E F Z}
    {l : Logger E} (h : Reachable zap w l) : Consistent zap w l := by
  induction h with
  | root w serviceName l err hroot =>
    obtain ⟨h1, h2, h3, h4, h5, h6⟩ := NewLogger_some zap w serviceName hroot
    refine ⟨⟨?_, ?_, ?_, ?_⟩, ?_, ?_, ?_, ?_, ?_⟩
    · rw [h3, h1]; simp [validRef]
    · rw [h4, h2]; simp [validRef]
    · rw [h5]; simp [World.ValidSlice, Slice.nil, cellsOf]
    · rw [h6]; simp [World.ValidSlice, Slice.nil, cellsOf]
    · rw [h5]; rfl
    · rw [h6]; rfl
    · rw [h5, h3]; simp [World.elems, sliceElems, Slice.nil, World.labelMapAt, h1, mapAt]
    · rw [h6, h4]; simp [World.elems, sliceElems, Slice.nil, World.fieldMapAt, h2, mapAt]
    · intro k _
      rw [h4]; simp [World.fieldMapAt, h2, mapAt]
  | derive c _ ih => exact ih.apply c
  | keep c _ _ ih _ => exact ih.of_extends (WithCall.apply_extends zap _ _ c)
  | keepRoot serviceName _ ih => exact ih.of_extends (NewLogger_extends zap _ serviceName)
  | keepInfo msg _ _ ih ih' => exact ih.of_extends (Info_extends zap ih'.2.2.1 msg)
  | keepError msg err _ _ ih ih' => exact ih.of_extends (Error_extends zap ih'.2.2.1 msg err)

theorem World.calls_append (w : World E F Z) (s : Slice) (xs : List Z) :
    (w.append s xs).2.calls = w.calls := by
  unfold World.append
  split
  · split <;> rfl
  · rfl

/-- The call `Info` makes. -/
theorem Info_calls (zap : ZapLib E F Z Err) {w : World E F Z} {l : Logger E}
    (hv : w.ValidSlice l.fieldList) (msg : String) :
    (Info zap w l msg).calls = w.calls ++
      [⟨l.logger, Level.info, msg, w.elems l.fieldList ++ [zap.Labels (w.elems l.labelList)]⟩] := by
  rw [Info_eq, World.emit, World.elems_append hv, World.calls_append]

theorem entries_eq_singleton {m : GoMap V} {key : String} {v : V}
    (h : ∀ k, m.lookup k = if k = key then some v else none) : m.entries = [⟨key, v⟩] := by
  have hp : m.entries.Perm (AList.singleton key v).entries :=
    entries_perm_of_lookup_eq (fun k => by
      rw [h k]
      by_cases hk : k = key
      · subst hk; simp [AList.lookup, AList.singleton]
      · simp [hk, AList.lookup, AList.singleton, List.dlookup_cons_ne])
  exact List.perm_singleton.mp hp

theorem lookup_eq_none_of_keys_nil {m : GoMap V} (h : m.keys = []) (k : String) :
    m.lookup k = none := by
  rw [AList.lookup_eq_none, AList.mem_keys, h]; simp

/-- A `With*` call on any logger leaves a live logger as it was. -/
theorem WithCall.apply_frame [Inhabited Z] (zap : ZapLib E F Z Err) (w : World E F Z)
    (l' : Logger E) (c : WithCall F) {l : Logger E} (hl : w.Live l) :
    (c.apply zap w l').2.Live l ∧
      (c.apply zap w l').2.labelMapAt l.labelMap = w.labelMapAt l.labelMap ∧
      (c.apply zap w l').2.elems l.labelList = w.elems l.labelList ∧
      (c.apply zap w l').2.fieldMapAt l.fieldMap = w.fieldMapAt l.fieldMap ∧
      (c.apply zap w l').2.elems l.fieldList = w.elems l.fieldList :=
  (WithCall.apply_extends zap w l' c).frame hl

theorem Fatal_eq (zap : ZapLib E F Z Err) (w : World E F Z) (l : Logger E) (msg : String)
    (err : Option Err) :
    Fatal zap w l msg err
      = (w.append l.fieldList [zap.Error err, zap.Labels (w.elems l.labelList)]).2.emit l.logger
          Level.fatal msg
          (w.append l.fieldList [zap.Error err, zap.Labels (w.elems l.labelList)]).1 := rfl

theorem Fatal_extends (zap : ZapLib E F Z Err) {w : World E F Z} {l : Logger E}
    (hfull : l.fieldList.len = l.fieldList.cap) (msg : String) (err : Option Err) :
    w.Extends (Fatal zap w l msg err) := by
  obtain ⟨h1, h2, h3, h4⟩ := World.append_full w hfull (zap.Error err)
    [zap.Labels (w.elems l.labelList)]
  rw [Fatal_eq]
  refine World.Extends.trans ?_ (World.emit_extends _ _ _ _ _)
  exact ⟨by rw [h1], by rw [h2], h3, by rw [h4]⟩

/-- The call `Error` makes. -/
theorem Error_calls (zap : ZapLib E F Z Err) {w : World E F Z} {l : Logger E}
    (hv : w.ValidSlice l.fieldList) (msg : String) (err : Option Err) :
    (Error zap w l msg err).calls = w.calls ++
      [⟨l.logger, Level.error, msg,
        w.elems l.fieldList ++ [zap.Error err, zap.Labels (w.elems l.labelList)]⟩] := by
  rw [Error_eq, World.emit, World.elems_append hv, World.calls_append]

/-- The call `Fatal` makes. -/
theorem Fatal_calls (zap : ZapLib E F Z Err) {w : World E F Z} {l : Logger E}
    (hv : w.ValidSlice l.fieldList) (msg : String) (err : Option Err) :
    (Fatal zap w l msg err).calls = w.calls ++
      [⟨l.logger, Level.fatal, msg,
        w.elems l.fieldList ++ [zap.Error err, zap.Labels (w.elems l.labelList)]⟩] := by
  rw [Fatal_eq, World.emit, World.elems_append hv, World.calls_append]

theorem length_eq_zero_iff_empty (s : String) : (s.length == 0) = true ↔ s = "" := by
  rw [beq_iff_eq]
  constructor
  · intro h
    have : s.data = [] := List.length_eq_zero.mp h
    exact String.ext this
  · rintro rfl; rfl

theorem NewLogger_ok (zap : ZapLib E F Z Err) (w : World E F Z) (serviceName effective : String)
    (eng : E) (heff : effective = if serviceName.length == 0 then "unknown-service" else serviceName)
    (hok : zap.NewProductionWithCore effective = Except.ok eng) :
    NewLogger zap w serviceName
      = ((some ⟨eng, some w.labelMaps.length, Slice.nil, some w.fieldMaps.length, Slice.nil⟩,
          if serviceName.length == 0
            then some (zap.Errorf "zapdriver.NewLogger, servicename not set") else none),
        { w with labelMaps := w.labelMaps ++ [∅], fieldMaps := w.fieldMaps ++ [∅] }) := by
  subst heff
  simp only [NewLogger, hok, World.makeLabelMap, World.makeFieldMap]

theorem NewLogger_error (zap : ZapLib E F Z Err) (w : World E F Z) (serviceName effective : String)
    (e : Err) (heff : effective = if serviceName.length == 0 then "unknown-service" else serviceName)
    (herr : zap.NewProductionWithCore effective = Except.error e) :
    NewLogger zap w serviceName = ((none, some e), w) := by
  subst heff
  simp only [NewLogger, herr]

/-- Appending to a full slice: the result is a slice over a new array. -/
theorem World.append_fresh (w : World E F Z) {s : Slice} (hfull : s.len = s.cap) (x : Z)
    (xs : List Z) :
    (w.append s (x :: xs)).1.arr = some w.arrays.length ∧
      (w.append s (x :: xs)).2.arrays = w.arrays ++ [w.elems s ++ x :: xs] := by
  have hfit : ¬ s.len + (x :: xs).length ≤ s.cap := by simp; omega
  unfold World.append
  rw [if_neg hfit]
  exact ⟨rfl, rfl⟩

/-- The labels after `WithLabel(key, v₁)` and then `WithLabel(key, v₂)` on the outcome are
the labels after `WithLabel(key, v₂)` alone, run in any world where `l` has the same labels. -/
theorem last_label_wins [Inhabited Z] (zap : ZapLib E F Z Err) (w w' : World E F Z)
    (l : Logger E) (key v₁ v₂ : String)
    (hread : w'.labelMapAt l.labelMap = w.labelMapAt l.labelMap) (k : String) :
    ((WithLabel zap (WithLabel zap w l key v₁).2 (WithLabel zap w l key v₁).1 key v₂).2.labelMapAt
        (WithLabel zap (WithLabel zap w l key v₁).2 (WithLabel zap w l key v₁).1 key
          v₂).1.labelMap).lookup k
      = ((WithLabel zap w' l key v₂).2.labelMapAt
          (WithLabel zap w' l key v₂).1.labelMap).lookup k := by
  rw [(WithLabel_derived zap _ _ key v₂).label_facts.2.2.2.2.1 k,
    (WithLabel_derived zap w l key v₁).label_facts.2.2.2.2.1 k,
    (WithLabel_derived zap w' l key v₂).label_facts.2.2.2.2.1 k, hread]
  by_cases hk : k = key <;> simp [hk]

/-- The fields after `WithField(key, v₁)` and then `WithField(key, v₂)` on the outcome are
the fields after `WithField(key, v₂)` alone, run in any world where `l` has the same fields. -/
theorem last_field_wins [Inhabited Z] (zap : ZapLib E F Z Err) (w w' : World E F Z)
    (l : Logger E) (key : String) (v₁ v₂ : F)
    (hread : w'.fieldMapAt l.fieldMap = w.fieldMapAt l.fieldMap) (k : String) :
    ((WithField zap (WithField zap w l key v₁).2 (WithField zap w l key v₁).1 key v₂).2.fieldMapAt
        (WithField zap (WithField zap w l key v₁).2 (WithField zap w l key v₁).1 key
          v₂).1.fieldMap).lookup k
      = ((WithField zap w' l key v₂).2.fieldMapAt
          (WithField zap w' l key v₂).1.fieldMap).lookup k := by
  rw [(WithField_derived zap _ _ key v₂).field_facts.2.2.2.2.1 k,
    (WithField_derived zap w l key v₁).field_facts.2.2.2.2.1 k,
    (WithField_derived zap w' l key v₂).field_facts.2.2.2.2.1 k, hread]
  by_cases hk : k = key <;> by_cases hd : isDefaultKey key = false <;> simp [hk, hd]

theorem lookup_singleton (key : String) (v : V) (k : String) :
    (AList.singleton key v : GoMap V).lookup k = if k = key then some v else none := by
  by_cases hk : k = key
  · subst hk; simp [AList.lookup, AList.singleton]
  · simp [hk, AList.lookup, AList.singleton, List.dlookup_cons_ne]

/-- `WithField(key, value)` in `w` and `WithFields({key: value})` in an extension of `w`. -/
theorem WithField_WithFields_agree [Inhabited Z] (zap : ZapLib E F Z Err) {w w' : World E F Z}
    (he : w.Extends w') {l : Logger E} (hl : w.Live l) (key : String) (value : F) :
    let A := WithField zap w l key value
    let B := WithFields zap w' l (AList.singleton key value)
    (∀ k, (A.2.labelMapAt A.1.labelMap).lookup k = (B.2.labelMapAt B.1.labelMap).lookup k) ∧
      A.2.elems A.1.labelList = B.2.elems B.1.labelList ∧
      (∀ k, (A.2.fieldMapAt A.1.fieldMap).lookup k = (B.2.fieldMapAt B.1.fieldMap).lookup k) ∧
      (A.2.elems A.1.fieldList).Perm (B.2.elems B.1.fieldList) := by
  intro A B
  obtain ⟨-, -, -, -, a5, a6, a7, a8⟩ := (WithField_derived zap w l key value).field_facts
  obtain ⟨-, -, -, -, b5, b6, b7, b8⟩ :=
    (WithFields_derived zap w' l (AList.singleton key value)).field_facts
  obtain ⟨hl', e1, e2, e3, -⟩ := he.frame hl
  have hf : ∀ k, (A.2.fieldMapAt A.1.fieldMap).lookup k
      = (B.2.fieldMapAt B.1.fieldMap).lookup k := by
    intro k
    rw [a5 k, b5 k, e3, lookup_singleton]
    by_cases hk : k = key
    · subst hk
      cases hd : isDefaultKey k <;> simp [hd]
    · simp [hk]
  refine ⟨fun k => ?_, ?_, hf, ?_⟩
  · rw [a7 k, b7 k, e1]
  · rw [(a8 hl.2.2.1).1, (b8 hl'.2.2.1).1, e2]
  · exact a6.trans (((entries_perm_of_lookup_eq hf).map _).trans b6.symm)

/-- `WithLabel(key, value)` in `w` and `WithLabels({key: value})` in an extension of `w`. -/
theorem WithLabel_WithLabels_agree [Inhabited Z] (zap : ZapLib E F Z Err) {w w' : World E F Z}
    (he : w.Extends w') {l : Logger E} (hl : w.Live l) (key value : String) :
    let A := WithLabel zap w l key value
    let B := WithLabels zap w' l (AList.singleton key value)
    (∀ k, (A.2.labelMapAt A.1.labelMap).lookup k = (B.2.labelMapAt B.1.labelMap).lookup k) ∧
      (A.2.elems A.1.labelList).Perm (B.2.elems B.1.labelList) ∧
      (∀ k, (A.2.fieldMapAt A.1.fieldMap).lookup k = (B.2.fieldMapAt B.1.fieldMap).lookup k) ∧
      A.2.elems A.1.fieldList = B.2.elems B.1.fieldList := by
  intro A B
  obtain ⟨-, -, -, -, a5, a6, a7, a8⟩ := (WithLabel_derived zap w l key value).label_facts
  obtain ⟨-, -, -, -, b5, b6, b7, b8⟩ :=
    (WithLabels_derived zap w' l (AList.singleton key value)).label_facts
  obtain ⟨hl', e1, -, e3, e4⟩ := he.frame hl
  have hf : ∀ k, (A.2.labelMapAt A.1.labelMap).lookup k
      = (B.2.labelMapAt B.1.labelMap).lookup k := by
    intro k
    rw [a5 k, b5 k, e1, lookup_singleton]
    by_cases hk : k = key <;> simp [hk]
  refine ⟨hf, ?_, fun k => ?_, ?_⟩
  · exact a6.trans (((entries_perm_of_lookup_eq hf).map _).trans b6.symm)
  · rw [a7 k, b7 k, e3]
  · rw [(a8 hl.2.2.2).1, (b8 hl'.2.2.2).1, e4]

end Lemmas

/-! ## The claims -/

section Claims

variable {E F Z Err V α : Type}

theorem isDefaultKey_iff (key : String) : isDefaultKey key = true ↔ key ∈ defaultFields := by
  simp only [isDefaultKey, List.any_eq_true, beq_iff_eq]
  constructor
  · rintro ⟨x, hx, rfl⟩; exact hx
  · intro h; exact ⟨key, h, rfl⟩

theorem isDefaultKey_eq_false_iff (key : String) :
    isDefaultKey key = false ↔ key ∉ defaultFields := by
  rw [← isDefaultKey_iff]; simp

theorem exRoot_reachable : Reachable symZap exWorld exRoot :=
  Reachable.root (World.start (fun _ => RangeOrder.stored)) "svc" exRoot none rfl

theorem exRoot_live : exWorld.Live exRoot := by decide

/-- C1: every logger reachable from a `NewLogger` root by `With*` calls has a `fieldMap`
without any of the seven reserved keys. -/
theorem C1_fieldMap_has_no_reserved_key [Inhabited Z] (zap : ZapLib E F Z Err)
    (w : World E F Z) (l : Logger E) (h : Reachable zap w l) (k : String)
    (hk : k ∈ ["caller", "context", "error", "message", "serviceContext", "stacktrace",
      "timestamp"]) :
    k ∉ (w.fieldMapAt l.fieldMap).keys := by
  have hd : isDefaultKey k = true := (isDefaultKey_iff k).mpr hk
  have hnone := h.consistent.2.2.2.2.2 k hd
  exact fun hmem => (AList.lookup_eq_none.mp hnone) (AList.mem_keys.mpr hmem)

/-- C1 at `exRoot.WithField("error", 7)`: the key "error" is not in its `fieldMap`. -/
theorem C1_witness :
    Reachable symZap (WithField symZap exWorld exRoot "error" 7).2
        (WithField symZap exWorld exRoot "error" 7).1 ∧
      "error" ∉ (World.fieldMapAt (WithField symZap exWorld exRoot "error" 7).2
        (WithField symZap exWorld exRoot "error" 7).1.fieldMap).keys :=
  ⟨Reachable.derive (WithCall.withField "error" 7) exRoot_reachable,
    C1_fieldMap_has_no_reserved_key symZap _ _
      (Reachable.derive (WithCall.withField "error" 7) exRoot_reachable) "error" (by decide)⟩

/-- C2: `WithField` with a reserved key returns a logger whose `fieldMap` has the entries of
the receiver's, nothing inserted and nothing overwritten.  The value plays no part: run from
the same state with another value, the call has the same outcome, and `Info` on the two
outcomes passes the same fields to the engine.  Run one after the other, `L.WithField(key, v)`
and `L.WithField(key, v')` give loggers with equal `fieldMap`s whose `Info` passes the same
fields to the engine: the fields of the map, in the order the runtime ranged over it when the
list was built, and then the same labels group. -/
theorem C2_WithField_reserved_key [Inhabited Z] (zap : ZapLib E F Z Err) (w : World E F Z)
    (l : Logger E) (hl : w.Live l) (key : String) (hk : key ∈ defaultFields) (v v' : F) :
    (∀ k, ((WithField zap w l key v).2.fieldMapAt (WithField zap w l key v).1.fieldMap).lookup k
        = (w.fieldMapAt l.fieldMap).lookup k) ∧
      WithField zap w l key v = WithField zap w l key v' ∧
      (∀ msg, Info zap (WithField zap w l key v).2 (WithField zap w l key v).1 msg
        = Info zap (WithField zap w l key v').2 (WithField zap w l key v').1 msg) ∧
      (let A := WithField zap w l key v
       let B := WithField zap A.2 l key v'
       (∀ k, (B.2.fieldMapAt A.1.fieldMap).lookup k = (B.2.fieldMapAt B.1.fieldMap).lookup k) ∧
        ∀ msg, ∃ fs fs',
          (Info zap B.2 A.1 msg).calls = B.2.calls ++ [⟨l.logger, Level.info, msg, fs⟩] ∧
          (Info zap B.2 B.1 msg).calls = B.2.calls ++ [⟨l.logger, Level.info, msg, fs'⟩] ∧
          fs.Perm fs') := by
  have hd : isDefaultKey key = true := (isDefaultKey_iff key).mpr hk
  obtain ⟨a1, a2, a3, -, a5, a6, -, a8⟩ := (WithField_derived zap w l key v).field_facts
  obtain ⟨la, -, lb, lc, -⟩ := a1.frame hl
  obtain ⟨b1, b2, b3, -, b5, b6, -, b8⟩ :=
    (WithField_derived zap (WithField zap w l key v).2 l key v').field_facts
  obtain ⟨fa, -, fb, fc, fd⟩ := b1.frame a2
  have hA : ∀ k, ((WithField zap w l key v).2.fieldMapAt (WithField zap w l key v).1.fieldMap).lookup k
      = (w.fieldMapAt l.fieldMap).lookup k := by
    intro k; rw [a5 k]; simp [hd]
  have hsame : WithField zap w l key v = WithField zap w l key v' := by
    simp only [WithField, hd, Bool.not_true, Bool.false_eq_true, if_false]
  refine ⟨hA, hsame, fun msg => by rw [hsame], ?_⟩
  · have hAB : ∀ k, ((WithField zap (WithField zap w l key v).2 l key v').2.fieldMapAt
          (WithField zap w l key v).1.fieldMap).lookup k
        = ((WithField zap (WithField zap w l key v).2 l key v').2.fieldMapAt
          (WithField zap (WithField zap w l key v).2 l key v').1.fieldMap).lookup k := by
      intro k
      rw [fc, hA k, b5 k, lc]; simp [hd]
    refine ⟨hAB, fun msg => ?_⟩
    have hIA := Info_calls zap fa.2.2.2 msg
    have hIB := Info_calls zap b2.2.2.2 msg
    rw [a3] at hIA
    rw [b3] at hIB
    refine ⟨_, _, hIA, hIB, List.Perm.append ?_ ?_⟩
    · rw [fd]
      refine a6.trans (List.Perm.trans ?_ b6.symm)
      refine (entries_perm_of_lookup_eq (fun k => ?_)).map _
      rw [← fc]; exact hAB k
    · rw [fb, (a8 hl.2.2.1).1, (b8 la.2.2.1).1, lb]

/-- C2 at `exRoot`, key "error", values 1 and 2. -/
theorem C2_witness :
    exWorld.Live exRoot ∧ "error" ∈ defaultFields ∧
      WithField symZap exWorld exRoot "error" 1 = WithField symZap exWorld exRoot "error" 2 :=
  ⟨exRoot_live, by decide,
    (C2_WithField_reserved_key symZap exWorld exRoot exRoot_live "error" (by decide) 1 2).2.1⟩

/-- C3 (copy independence): derive `A = L.WithLabel(key, v₁)` and then
`B = L.WithLabel(key, v₂)` (the claim has key "a" and values "1", "2").  Then `A` maps the key to
`v₁` and `B` maps it to `v₂`; the maps and lists of `L` are what they were; when `L` has no
labels, `A` has the single label `key: v₁`, `B` the single label `key: v₂`, and `L` still has
none; and any further `With*` call on `A` changes neither `L` nor `B`. -/
theorem C3_copy_independence [Inhabited Z] (zap : ZapLib E F Z Err) (w : World E F Z)
    (l : Logger E) (hl : w.Live l) (key v₁ v₂ : String) :
    let A := WithLabel zap w l key v₁
    let B := WithLabel zap A.2 l key v₂
    (B.2.labelMapAt A.1.labelMap).lookup key = some v₁ ∧
      (B.2.labelMapAt B.1.labelMap).lookup key = some v₂ ∧
      (B.2.labelMapAt l.labelMap = w.labelMapAt l.labelMap ∧
        B.2.elems l.labelList = w.elems l.labelList ∧
        B.2.fieldMapAt l.fieldMap = w.fieldMapAt l.fieldMap ∧
        B.2.elems l.fieldList = w.elems l.fieldList) ∧
      ((w.labelMapAt l.labelMap).keys = [] →
        (B.2.labelMapAt A.1.labelMap).entries = [⟨key, v₁⟩] ∧
          (B.2.labelMapAt B.1.labelMap).entries = [⟨key, v₂⟩] ∧
          (B.2.labelMapAt l.labelMap).keys = []) ∧
      ∀ c : WithCall F,
        let C := c.apply zap B.2 A.1
        (C.2.labelMapAt l.labelMap = B.2.labelMapAt l.labelMap ∧
          C.2.elems l.labelList = B.2.elems l.labelList ∧
          C.2.fieldMapAt l.fieldMap = B.2.fieldMapAt l.fieldMap ∧
          C.2.elems l.fieldList = B.2.elems l.fieldList) ∧
        (C.2.labelMapAt B.1.labelMap = B.2.labelMapAt B.1.labelMap ∧
          C.2.elems B.1.labelList = B.2.elems B.1.labelList ∧
          C.2.fieldMapAt B.1.fieldMap = B.2.fieldMapAt B.1.fieldMap ∧
          C.2.elems B.1.fieldList = B.2.elems B.1.fieldList) := by
  intro A B
  obtain ⟨a1, a2, -, -, a5, -⟩ := (WithLabel_derived zap w l key v₁).label_facts
  obtain ⟨la, la1, la2, la3, la4⟩ := a1.frame hl
  obtain ⟨b1, b2, -, -, b5, -⟩ := (WithLabel_derived zap A.2 l key v₂).label_facts
  obtain ⟨lb, lb1, lb2, lb3, lb4⟩ := b1.frame la
  obtain ⟨-, fa1, -⟩ := b1.frame a2
  have hA : ∀ k, (B.2.labelMapAt A.1.labelMap).lookup k
      = if k = key then some v₁ else (w.labelMapAt l.labelMap).lookup k := by
    intro k; rw [fa1]; exact a5 k
  have hB : ∀ k, (B.2.labelMapAt B.1.labelMap).lookup k
      = if k = key then some v₂ else (w.labelMapAt l.labelMap).lookup k := by
    intro k; rw [b5 k, la1]
  refine ⟨by rw [hA]; simp, by rw [hB]; simp,
    ⟨lb1.trans la1, lb2.trans la2, lb3.trans la3, lb4.trans la4⟩, ?_, ?_⟩
  · intro hnil
    refine ⟨entries_eq_singleton (fun k => ?_), entries_eq_singleton (fun k => ?_), ?_⟩
    · rw [hA k, lookup_eq_none_of_keys_nil hnil]
    · rw [hB k, lookup_eq_none_of_keys_nil hnil]
    · rw [lb1.trans la1]; exact hnil
  · intro c C
    obtain ⟨-, c1, c2, c3, c4⟩ := WithCall.apply_frame zap B.2 A.1 c lb
    obtain ⟨-, d1, d2, d3, d4⟩ := WithCall.apply_frame zap B.2 A.1 c b2
    exact ⟨⟨c1, c2, c3, c4⟩, ⟨d1, d2, d3, d4⟩⟩

/-- C3 at `exRoot`, which has no labels, with key "a" and values "1", "2". -/
theorem C3_witness :
    exWorld.Live exRoot ∧
      (World.labelMapAt
        (WithLabel symZap (WithLabel symZap exWorld exRoot "a" "1").2 exRoot "a" "2").2
        (WithLabel symZap exWorld exRoot "a" "1").1.labelMap).entries = [⟨"a", "1"⟩] :=
  ⟨exRoot_live,
    ((C3_copy_independence symZap exWorld exRoot exRoot_live "a" "1" "2").2.2.2.1 rfl).1⟩

/-- C4: for a key that is not reserved, the `fieldMap` of `L.WithField(key, value)` maps the
key to the value and has, at every other key, what the `fieldMap` of `L` has there. -/
theorem C4_WithField_sets_key [Inhabited Z] (zap : ZapLib E F Z Err) (w : World E F Z)
    (l : Logger E) (key : String) (value : F) (hk : key ∉ defaultFields) :
    ((WithField zap w l key value).2.fieldMapAt (WithField zap w l key value).1.fieldMap).lookup
        key = some value ∧
      ∀ k, k ≠ key →
        ((WithField zap w l key value).2.fieldMapAt
          (WithField zap w l key value).1.fieldMap).lookup k = (w.fieldMapAt l.fieldMap).lookup k := by
  have hd : isDefaultKey key = false := (isDefaultKey_eq_false_iff key).mpr hk
  have h5 := (WithField_derived zap w l key value).field_facts.2.2.2.2.1
  refine ⟨by rw [h5]; simp [hd], fun k hne => ?_⟩
  rw [h5]; simp [hne]

/-- C4 at `exRoot`, key "user", value 7. -/
theorem C4_witness :
    "user" ∉ defaultFields ∧
      (World.fieldMapAt (WithField symZap exWorld exRoot "user" 7).2
        (WithField symZap exWorld exRoot "user" 7).1.fieldMap).lookup "user" = some 7 :=
  ⟨by decide, (C4_WithField_sets_key symZap exWorld exRoot "user" 7 (by decide)).1⟩

/-- C5: the `fieldMap` of `L.WithFields(fields)`, key by key: a key of `fields` that is not
reserved has the value `fields` gives it; any other key (reserved, or not in `fields`) has
what the `fieldMap` of `L` has there. -/
theorem C5_WithFields_pointwise [Inhabited Z] (zap : ZapLib E F Z Err) (w : World E F Z)
    (l : Logger E) (fields : GoMap F) (k : String) :
    ((WithFields zap w l fields).2.fieldMapAt (WithFields zap w l fields).1.fieldMap).lookup k
      = if k ∈ fields.keys ∧ k ∉ defaultFields then fields.lookup k
        else (w.fieldMapAt l.fieldMap).lookup k := by
  rw [(WithFields_derived zap w l fields).field_facts.2.2.2.2.1 k]
  by_cases hd : k ∈ defaultFields
  · have hd' : isDefaultKey k = true := (isDefaultKey_iff k).mpr hd
    simp [hd, hd']
  · have hd' : isDefaultKey k = false := (isDefaultKey_eq_false_iff k).mpr hd
    by_cases hm : k ∈ fields.keys
    · obtain ⟨v, hv⟩ := Option.isSome_iff_exists.mp (AList.lookup_isSome.mpr (AList.mem_keys.mpr hm))
      simp [hd, hd', hm, hv]
    · have hn : fields.lookup k = none :=
        AList.lookup_eq_none.mpr (fun h => hm (AList.mem_keys.mp h))
      simp [hd, hd', hm, hn]

/-- C6: labels have no reserved-key protection.  The `labelMap` of `L.WithLabel(key, value)`
maps the key to the value, whatever the key (so for the key "error" too), and has, at every
other key, what the `labelMap` of `L` has there; the `labelMap` of `L.WithLabels(labels)` has at
a key of `labels` the value `labels` gives it and at any other key what the `labelMap` of `L`
has there. -/
theorem C6_labels_unprotected [Inhabited Z] (zap : ZapLib E F Z Err) (w : World E F Z)
    (l : Logger E) :
    (∀ key value : String,
      ((WithLabel zap w l key value).2.labelMapAt
          (WithLabel zap w l key value).1.labelMap).lookup key = some value ∧
        ∀ k, k ≠ key →
          ((WithLabel zap w l key value).2.labelMapAt
            (WithLabel zap w l key value).1.labelMap).lookup k
              = (w.labelMapAt l.labelMap).lookup k) ∧
      (∀ value : String,
        ((WithLabel zap w l "error" value).2.labelMapAt
          (WithLabel zap w l "error" value).1.labelMap).lookup "error" = some value) ∧
      ∀ (labels : GoMap String) (k : String),
        ((WithLabels zap w l labels).2.labelMapAt (WithLabels zap w l labels).1.labelMap).lookup k
          = if k ∈ labels.keys then labels.lookup k else (w.labelMapAt l.labelMap).lookup k := by
  have hone : ∀ key value : String,
      ((WithLabel zap w l key value).2.labelMapAt
          (WithLabel zap w l key value).1.labelMap).lookup key = some value ∧
        ∀ k, k ≠ key →
          ((WithLabel zap w l key value).2.labelMapAt
            (WithLabel zap w l key value).1.labelMap).lookup k
              = (w.labelMapAt l.labelMap).lookup k := by
    intro key value
    have h5 := (WithLabel_derived zap w l key value).label_facts.2.2.2.2.1
    refine ⟨by rw [h5]; simp, fun k hne => ?_⟩
    rw [h5]; simp [hne]
  refine ⟨hone, fun value => (hone "error" value).1, fun labels k => ?_⟩
  rw [(WithLabels_derived zap w l labels).label_facts.2.2.2.2.1 k]
  by_cases hm : k ∈ labels.keys
  · obtain ⟨v, hv⟩ := Option.isSome_iff_exists.mp (AList.lookup_isSome.mpr (AList.mem_keys.mpr hm))
    simp [hm, hv]
  · have hn : labels.lookup k = none :=
      AList.lookup_eq_none.mpr (fun h => hm (AList.mem_keys.mp h))
    simp [hm, hn]

/-- C7 (cross-kind frame): `WithLabel` and `WithLabels` return a logger whose `fieldMap` has
the entries of the receiver's and whose `fieldList` has the elements of the receiver's, in the
same order; `WithField` and `WithFields` return a logger whose `labelMap` and `labelList` are
the receiver's in the same sense; and every `With*` call returns a logger with the engine of
the receiver. -/
theorem C7_cross_kind_frame [Inhabited Z] (zap : ZapLib E F Z Err) (w : World E F Z)
    (l : Logger E) (hl : w.Live l) :
    (∀ key value : String,
      (∀ k, ((WithLabel zap w l key value).2.fieldMapAt
          (WithLabel zap w l key value).1.fieldMap).lookup k = (w.fieldMapAt l.fieldMap).lookup k) ∧
        (WithLabel zap w l key value).2.elems (WithLabel zap w l key value).1.fieldList
          = w.elems l.fieldList) ∧
      (∀ labels : GoMap String,
        (∀ k, ((WithLabels zap w l labels).2.fieldMapAt
            (WithLabels zap w l labels).1.fieldMap).lookup k = (w.fieldMapAt l.fieldMap).lookup k) ∧
          (WithLabels zap w l labels).2.elems (WithLabels zap w l labels).1.fieldList
            = w.elems l.fieldList) ∧
      (∀ (key : String) (value : F),
        (∀ k, ((WithField zap w l key value).2.labelMapAt
            (WithField zap w l key value).1.labelMap).lookup k = (w.labelMapAt l.labelMap).lookup k) ∧
          (WithField zap w l key value).2.elems (WithField zap w l key value).1.labelList
            = w.elems l.labelList) ∧
      (∀ fields : GoMap F,
        (∀ k, ((WithFields zap w l fields).2.labelMapAt
            (WithFields zap w l fields).1.labelMap).lookup k = (w.labelMapAt l.labelMap).lookup k) ∧
          (WithFields zap w l fields).2.elems (WithFields zap w l fields).1.labelList
            = w.elems l.labelList) ∧
      ∀ c : WithCall F, (c.apply zap w l).1.logger = l.logger := by
  refine ⟨fun key value => ?_, fun labels => ?_, fun key value => ?_, fun fields => ?_,
    fun c => ?_⟩
  · obtain ⟨-, -, -, -, -, -, f7, f8⟩ := (WithLabel_derived zap w l key value).label_facts
    exact ⟨f7, (f8 hl.2.2.2).1⟩
  · obtain ⟨-, -, -, -, -, -, f7, f8⟩ := (WithLabels_derived zap w l labels).label_facts
    exact ⟨f7, (f8 hl.2.2.2).1⟩
  · obtain ⟨-, -, -, -, -, -, f7, f8⟩ := (WithField_derived zap w l key value).field_facts
    exact ⟨f7, (f8 hl.2.2.1).1⟩
  · obtain ⟨-, -, -, -, -, -, f7, f8⟩ := (WithFields_derived zap w l fields).field_facts
    exact ⟨f7, (f8 hl.2.2.1).1⟩
  · cases c with
    | withLabel key value => exact (WithLabel_derived zap w l key value).label_facts.2.2.1
    | withLabels labels => exact (WithLabels_derived zap w l labels).label_facts.2.2.1
    | withField key value => exact (WithField_derived zap w l key value).field_facts.2.2.1
    | withFields fields => exact (WithFields_derived zap w l fields).field_facts.2.2.1

/-- C7 at `exRoot.WithField("user", 7)`: a label call keeps its field list. -/
theorem C7_witness :
    (WithField symZap exWorld exRoot "user" 7).2.Live (WithField symZap exWorld exRoot "user" 7).1 ∧
      World.elems
        (WithLabel symZap (WithField symZap exWorld exRoot "user" 7).2
          (WithField symZap exWorld exRoot "user" 7).1 "a" "1").2
        (WithLabel symZap (WithField symZap exWorld exRoot "user" 7).2
          (WithField symZap exWorld exRoot "user" 7).1 "a" "1").1.fieldList
        = [SymField.any "user" 7] :=
  ⟨by decide,
    ((C7_cross_kind_frame symZap (WithField symZap exWorld exRoot "user" 7).2
      (WithField symZap exWorld exRoot "user" 7).1 (by decide)).1 "a" "1").2⟩

/-- C8 (list/map consistency): for every reachable logger, `labelList` holds the entries
`Label(k, labelMap[k])`, one for each key `k` of `labelMap` and nothing else, its length is
the number of label keys, and `fieldList` holds the entries `zap.Any(k, fieldMap[k])`, one for
each key of `fieldMap` and nothing else. -/
theorem C8_lists_render_maps [Inhabited Z] (zap : ZapLib E F Z Err) (w : World E F Z)
    (l : Logger E) (h : Reachable zap w l) :
    (w.elems l.labelList).Perm
        ((w.labelMapAt l.labelMap).entries.map (fun e => zap.Label e.1 e.2)) ∧
      (w.labelMapAt l.labelMap).keys.Nodup ∧
      (w.elems l.labelList).length = (w.labelMapAt l.labelMap).keys.length ∧
      l.labelList.len = (w.labelMapAt l.labelMap).keys.length ∧
      (w.elems l.fieldList).Perm
        ((w.fieldMapAt l.fieldMap).entries.map (fun e => zap.Any e.1 e.2)) ∧
      (w.fieldMapAt l.fieldMap).keys.Nodup ∧
      (w.elems l.fieldList).length = (w.fieldMapAt l.fieldMap).keys.length ∧
      l.fieldList.len = (w.fieldMapAt l.fieldMap).keys.length := by
  obtain ⟨hl, -, -, h3, h4, -⟩ := h.consistent
  have e3 : (w.elems l.labelList).length = (w.labelMapAt l.labelMap).keys.length := by
    rw [h3.length_eq]; simp [AList.keys, List.keys]
  have e4 : (w.elems l.fieldList).length = (w.fieldMapAt l.fieldMap).keys.length := by
    rw [h4.length_eq]; simp [AList.keys, List.keys]
  exact ⟨h3, AList.keys_nodup _, e3, by rw [← e3, hl.2.2.1.length_elems], h4,
    AList.keys_nodup _, e4, by rw [← e4, hl.2.2.2.length_elems]⟩

/-- C8 at `exRoot.WithLabel("a", "1").WithLabel("b", "2")`: two labels, two entries. -/
theorem C8_witness :
    Reachable symZap exTwoLabels.2 exTwoLabels.1 ∧
      (exTwoLabels.2.elems exTwoLabels.1.labelList).length = 2 :=
  ⟨Reachable.derive (WithCall.withLabel "b" "2")
      (Reachable.derive (WithCall.withLabel "a" "1") exRoot_reachable),
    (C8_lists_render_maps symZap exTwoLabels.2 exTwoLabels.1
      (Reachable.derive (WithCall.withLabel "b" "2")
        (Reachable.derive (WithCall.withLabel "a" "1") exRoot_reachable))).2.2.1⟩

/-- C9, as stated, fails: `L = exRoot.WithLabel("a", "1").WithLabel("b", "2")` is reachable
and has the `labelList` `[Label(b, 2), Label(a, 1)]` (the range of `generateLabelList` came to
"b" first), while `L.WithLabels(empty map)` ranges over its copy of the map anew, comes to "a"
first and has the `labelList` `[Label(a, 1), Label(b, 2)]`. -/
theorem C9_counterexample :
    Reachable symZap exTwoLabels.2 exTwoLabels.1 ∧
      exTwoLabels.2.elems exTwoLabels.1.labelList
        = [SymField.label "b" "2", SymField.label "a" "1"] ∧
      (WithLabels symZap exTwoLabels.2 exTwoLabels.1 ∅).2.elems
          (WithLabels symZap exTwoLabels.2 exTwoLabels.1 ∅).1.labelList
        = [SymField.label "a" "1", SymField.label "b" "2"] ∧
      (WithLabels symZap exTwoLabels.2 exTwoLabels.1 ∅).2.elems
          (WithLabels symZap exTwoLabels.2 exTwoLabels.1 ∅).1.labelList
        ≠ exTwoLabels.2.elems exTwoLabels.1.labelList :=
  ⟨Reachable.derive (WithCall.withLabel "b" "2")
      (Reachable.derive (WithCall.withLabel "a" "1") exRoot_reachable),
    by decide, by decide, by decide⟩

/-- C9, amended: for every logger `L` whose `labelList` holds the entries
`Label(k, labelMap[k])` of its `labelMap` (every reachable logger is such, by C8),
`L.WithLabels(empty map)` returns a logger whose `labelMap` has the entries of the `labelMap`
of `L` and whose `labelList` has the elements of the `labelList` of `L`, each as often, in
some order. -/
theorem C9_WithLabels_empty [Inhabited Z] (zap : ZapLib E F Z Err) (w : World E F Z)
    (l : Logger E)
    (hlist : (w.elems l.labelList).Perm
      ((w.labelMapAt l.labelMap).entries.map (fun e => zap.Label e.1 e.2))) :
    (∀ k, ((WithLabels zap w l ∅).2.labelMapAt (WithLabels zap w l ∅).1.labelMap).lookup k
        = (w.labelMapAt l.labelMap).lookup k) ∧
      ((WithLabels zap w l ∅).2.elems (WithLabels zap w l ∅).1.labelList).Perm
        (w.elems l.labelList) := by
  obtain ⟨-, -, -, -, f5, f6, -⟩ := (WithLabels_derived zap w l ∅).label_facts
  have hmap : ∀ k, ((WithLabels zap w l ∅).2.labelMapAt (WithLabels zap w l ∅).1.labelMap).lookup k
      = (w.labelMapAt l.labelMap).lookup k := by
    intro k; rw [f5 k]; simp
  exact ⟨hmap, f6.trans (((entries_perm_of_lookup_eq hmap).map _).trans hlist.symm)⟩

/-- C9, amended, at `exRoot.WithLabel("a", "1").WithLabel("b", "2")`. -/
theorem C9_witness :
    (exTwoLabels.2.elems exTwoLabels.1.labelList).Perm
        ((exTwoLabels.2.labelMapAt exTwoLabels.1.labelMap).entries.map
          (fun e => symZap.Label e.1 e.2)) ∧
      ((WithLabels symZap exTwoLabels.2 exTwoLabels.1 ∅).2.elems
        (WithLabels symZap exTwoLabels.2 exTwoLabels.1 ∅).1.labelList).Perm
        [SymField.label "b" "2", SymField.label "a" "1"] :=
  ⟨by decide, (C9_WithLabels_empty symZap exTwoLabels.2 exTwoLabels.1 (by decide)).2⟩

/-- C10: `Info(msg)` makes one call to the engine of the logger, at info severity, with the
message and with the elements of `fieldList`, in order, followed by the one field
`Labels(labelList...)`: `len(fieldList) + 1` fields, none of them built by `zap.Error`
here. -/
theorem C10_Info_call (zap : ZapLib E F Z Err) (w : World E F Z) (l : Logger E)
    (hv : w.ValidSlice l.fieldList) (msg : String) :
    (Info zap w l msg).calls = w.calls ++
        [⟨l.logger, Level.info, msg,
          w.elems l.fieldList ++ [zap.Labels (w.elems l.labelList)]⟩] ∧
      (w.elems l.fieldList ++ [zap.Labels (w.elems l.labelList)]).length
        = l.fieldList.len + 1 := by
  refine ⟨Info_calls zap hv msg, ?_⟩
  rw [List.length_append, hv.length_elems]; rfl

/-- C10 at `exRoot.WithLabel("a", "1").WithLabel("b", "2")`: one field, the labels group. -/
theorem C10_witness :
    exTwoLabels.2.ValidSlice exTwoLabels.1.fieldList ∧
      ((Info symZap exTwoLabels.2 exTwoLabels.1 "hello").calls.map (fun c => c.fields))
        = [[SymField.labels [("b", "2"), ("a", "1")]]] :=
  ⟨by decide,
    congrArg (List.map (fun c => c.fields))
      (C10_Info_call symZap exTwoLabels.2 exTwoLabels.1 (by decide) "hello").1⟩

/-- C11: `Error(msg, err)` makes one call to the engine, at error severity, with the message
and with the elements of `fieldList`, then the field `zap.Error(err)`, then the labels group:
the fields `Info(msg)` passes, and the error field before the last of them.  `Fatal(msg, err)`
passes the same message and the same fields, at fatal severity. -/
theorem C11_Error_Fatal_calls (zap : ZapLib E F Z Err) (w : World E F Z) (l : Logger E)
    (hv : w.ValidSlice l.fieldList) (msg : String) (err : Option Err) :
    (Info zap w l msg).calls = w.calls ++
        [⟨l.logger, Level.info, msg,
          w.elems l.fieldList ++ [zap.Labels (w.elems l.labelList)]⟩] ∧
      (Error zap w l msg err).calls = w.calls ++
        [⟨l.logger, Level.error, msg,
          w.elems l.fieldList ++ [zap.Error err] ++ [zap.Labels (w.elems l.labelList)]⟩] ∧
      (Fatal zap w l msg err).calls = w.calls ++
        [⟨l.logger, Level.fatal, msg,
          w.elems l.fieldList ++ [zap.Error err] ++ [zap.Labels (w.elems l.labelList)]⟩] := by
  refine ⟨Info_calls zap hv msg, ?_, ?_⟩
  · rw [Error_calls zap hv msg err, List.append_assoc]; rfl
  · rw [Fatal_calls zap hv msg err, List.append_assoc]; rfl

/-- C11 at `exRoot.WithLabel("a", "1").WithLabel("b", "2")` and the error "boom". -/
theorem C11_witness :
    exTwoLabels.2.ValidSlice exTwoLabels.1.fieldList ∧
      ((Error symZap exTwoLabels.2 exTwoLabels.1 "hello" (some "boom")).calls.map
          (fun c => (c.level, c.fields)))
        = [(Level.error,
            [SymField.error (some "boom"), SymField.labels [("b", "2"), ("a", "1")]])] :=
  ⟨by decide,
    congrArg (List.map (fun c => (c.level, c.fields)))
      (C11_Error_Fatal_calls symZap exTwoLabels.2 exTwoLabels.1 (by decide) "hello"
        (some "boom")).2.1⟩

/-- C12: with `zap.Error` as the spec has it (`specZapError`), `Error(msg, nil)` and
`Fatal(msg, nil)` go through: each makes its one call to the engine, and the fields of the
call are those of `fieldList`, then the error field with the empty description, then the
labels group. -/
theorem C12_nil_error (zap : ZapLib E F Z Err) (describe : Err → String) (field : String → Z)
    (hspec : ∀ err, zap.Error err = specZapError describe field err) (w : World E F Z)
    (l : Logger E) (hv : w.ValidSlice l.fieldList) (msg : String) :
    (Error zap w l msg none).calls = w.calls ++
        [⟨l.logger, Level.error, msg,
          w.elems l.fieldList ++ [field "", zap.Labels (w.elems l.labelList)]⟩] ∧
      (Fatal zap w l msg none).calls = w.calls ++
        [⟨l.logger, Level.fatal, msg,
          w.elems l.fieldList ++ [field "", zap.Labels (w.elems l.labelList)]⟩] ∧
      field "" ∈ w.elems l.fieldList ++ [field "", zap.Labels (w.elems l.labelList)] := by
  have h0 : zap.Error none = field "" := hspec none
  refine ⟨?_, ?_, by simp⟩
  · rw [Error_calls zap hv msg none, h0]
  · rw [Fatal_calls zap hv msg none, h0]

/-- C12 at `exRoot.WithLabel("a", "1").WithLabel("b", "2")`, in the library `symZapSpec`. -/
theorem C12_witness :
    (∀ err, symZapSpec.Error err
        = specZapError (fun e => e) (fun d => SymField.error (some d)) err) ∧
      exTwoLabels.2.ValidSlice exTwoLabels.1.fieldList ∧
      ((Error symZapSpec exTwoLabels.2 exTwoLabels.1 "hello" none).calls.map
          (fun c => c.fields))
        = [[SymField.error (some ""), SymField.labels [("b", "2"), ("a", "1")]]] :=
  ⟨fun _ => rfl, by decide,
    congrArg (List.map (fun c => c.fields))
      (C12_nil_error symZapSpec (fun e => e) (fun d => SymField.error (some d)) (fun _ => rfl)
        exTwoLabels.2 exTwoLabels.1 (by decide) "hello").1⟩

/-- C13 (empty-service-name fallback): when the engine constructor succeeds on
"unknown-service", `NewLogger("")` returns a logger with that engine, with an empty `labelMap`
and an empty `fieldMap`, and returns the error "servicename not set"; and when it succeeds on a
non-empty `serviceName`, `NewLogger(serviceName)` returns a logger with the engine built for
`serviceName` itself, again with empty maps, and a nil error. -/
theorem C13_service_name_fallback (zap : ZapLib E F Z Err) (w : World E F Z) :
    (∀ eng, zap.NewProductionWithCore "unknown-service" = Except.ok eng →
      ∃ l, (NewLogger zap w "").1
          = (some l, some (zap.Errorf "zapdriver.NewLogger, servicename not set")) ∧
        l.logger = eng ∧
        (NewLogger zap w "").2.labelMapAt l.labelMap = ∅ ∧
        (NewLogger zap w "").2.fieldMapAt l.fieldMap = ∅) ∧
      ∀ serviceName eng, serviceName ≠ "" →
        zap.NewProductionWithCore serviceName = Except.ok eng →
        ∃ l, (NewLogger zap w serviceName).1 = (some l, none) ∧
          l.logger = eng ∧
          (NewLogger zap w serviceName).2.labelMapAt l.labelMap = ∅ ∧
          (NewLogger zap w serviceName).2.fieldMapAt l.fieldMap = ∅ := by
  constructor
  · intro eng hok
    rw [NewLogger_ok zap w "" "unknown-service" eng rfl hok]
    exact ⟨_, rfl, rfl, mapAt_snoc_self _ _, mapAt_snoc_self _ _⟩
  · intro serviceName eng hne hok
    have hlen : (serviceName.length == 0) = false := by
      cases h : (serviceName.length == 0) with
      | false => rfl
      | true => exact absurd ((length_eq_zero_iff_empty serviceName).mp h) hne
    rw [NewLogger_ok zap w serviceName serviceName eng (by simp [hlen]) hok]
    simp only [hlen]
    exact ⟨_, rfl, rfl, mapAt_snoc_self _ _, mapAt_snoc_self _ _⟩

/-- C14: `NewLogger` returns a nil logger exactly when the engine constructor (called with
`serviceName`, or with "unknown-service" for the empty name) returns an error, and then it
returns that error itself; and it returns a non-nil error exactly when the constructor
failed or `serviceName` is empty. -/
theorem C14_NewLogger_failure (zap : ZapLib E F Z Err) (w : World E F Z)
    (serviceName : String) :
    ((NewLogger zap w serviceName).1.1 = none ↔
        ∃ e, zap.NewProductionWithCore
          (if serviceName = "" then "unknown-service" else serviceName) = Except.error e) ∧
      (∀ e, zap.NewProductionWithCore
          (if serviceName = "" then "unknown-service" else serviceName) = Except.error e →
        (NewLogger zap w serviceName).1 = (none, some e)) ∧
      ((NewLogger zap w serviceName).1.2 ≠ none ↔
        (∃ e, zap.NewProductionWithCore
          (if serviceName = "" then "unknown-service" else serviceName) = Except.error e) ∨
          serviceName = "") := by
  have heff : (if serviceName = "" then "unknown-service" else serviceName)
      = if serviceName.length == 0 then "unknown-service" else serviceName := by
    by_cases h : serviceName = ""
    · subst h; rfl
    · have : ¬ (serviceName.length == 0) = true := fun hl =>
        h ((length_eq_zero_iff_empty serviceName).mp hl)
      simp [h, this]
  cases hc : zap.NewProductionWithCore (if serviceName = "" then "unknown-service"
      else serviceName) with
  | error e =>
    rw [NewLogger_error zap w serviceName _ e heff hc]
    exact ⟨⟨fun _ => ⟨e, rfl⟩, fun _ => rfl⟩, fun e' he' => by cases he'; rfl,
      ⟨fun _ => Or.inl ⟨e, rfl⟩, fun _ => by simp⟩⟩
  | ok eng =>
    rw [NewLogger_ok zap w serviceName _ eng heff hc]
    refine ⟨⟨fun h => by simp at h, fun ⟨e, he⟩ => (by cases he)⟩, fun e he => (by cases he), ?_⟩
    by_cases h : serviceName = ""
    · subst h
      exact ⟨fun _ => Or.inr rfl, fun _ => by simp⟩
    · have hl : (serviceName.length == 0) = false := by
        cases h' : (serviceName.length == 0) with
        | false => rfl
        | true => exact absurd ((length_eq_zero_iff_empty serviceName).mp h') h
      simp only [hl]
      refine ⟨fun hne => absurd rfl hne, fun hor => ?_⟩
      rcases hor with ⟨e, he⟩ | he
      · cases he
      · exact absurd he h

/-- C15, as stated, fails on the tests of the repository: the entry "simple request" of
`TestNewHTTP` has a request whose URL is the path "/", with no scheme and no host; the rule of
the claim gives the empty `RequestURL` for it, and the test wants "/".  So `NewHTTP` with that
rule does not pass `TestNewHTTP`. -/
theorem C15_counterexample :
    (NewHTTP specRequestURL (some simpleRequest) none).RequestURL = "" ∧
      (⟨"simple request", some simpleRequest, none,
          { HTTPPayload.zero with
            RequestSize := "5", RequestMethod := "POST", RemoteIP := "192.0.2.1:1234",
            Protocol := "HTTP/1.1", RequestURL := "/" }⟩ : NewHTTPCase) ∈ TestNewHTTP ∧
      ¬ passesTestNewHTTP (NewHTTP specRequestURL) :=
  ⟨by decide, by simp [TestNewHTTP], by decide⟩

/-- C15, amended: for every request, the `RequestURL` of `NewHTTP(req, nil)` is
`scheme + "://" + host` when the URL of the request has a non-empty scheme and a non-empty
host (neither path nor query appears); it is the path of the URL when the URL has neither a
scheme nor a host (the query does not appear); and it is the empty string when the request has
no URL or when just one of scheme and host is empty.  With this rule `NewHTTP` passes every
entry of `TestNewHTTP`; for the request of "simple request" it gives "/", as every rendering
that passes `TestNewHTTP` does. -/
theorem C15_RequestURL (req : Request) :
    (req.URL = none → (NewHTTP requestURL (some req) none).RequestURL = "") ∧
      (∀ u : URL, req.URL = some u → u.Scheme ≠ "" → u.Host ≠ "" →
        (NewHTTP requestURL (some req) none).RequestURL = u.Scheme ++ "://" ++ u.Host) ∧
      (∀ u : URL, req.URL = some u → u.Scheme = "" → u.Host = "" →
        (NewHTTP requestURL (some req) none).RequestURL = u.Path) ∧
      (∀ u : URL, req.URL = some u →
        (u.Scheme = "" ∧ u.Host ≠ "") ∨ (u.Scheme ≠ "" ∧ u.Host = "") →
        (NewHTTP requestURL (some req) none).RequestURL = "") ∧
      passesTestNewHTTP (NewHTTP requestURL) ∧
      (NewHTTP requestURL (some simpleRequest) none).RequestURL = "/" ∧
      ∀ urlString : URL → String, passesTestNewHTTP (NewHTTP urlString) →
        (NewHTTP urlString (some simpleRequest) none).RequestURL = "/" := by
  refine ⟨fun hu => ?_, fun u hu hs hh => ?_, fun u hu hs hh => ?_, fun u hu hor => ?_,
    by decide, by decide, fun urlString hpass => ?_⟩
  · simp [NewHTTP, hu]
  · simp [NewHTTP, hu, requestURL, hs, hh]
  · simp [NewHTTP, hu, requestURL, hs, hh]
  · rcases hor with ⟨hs, hh⟩ | ⟨hs, hh⟩ <;> simp [NewHTTP, hu, requestURL, hs, hh]
  · have := hpass ⟨"simple request", some simpleRequest, none,
      { HTTPPayload.zero with
        RequestSize := "5", RequestMethod := "POST", RemoteIP := "192.0.2.1:1234",
        Protocol := "HTTP/1.1", RequestURL := "/" }⟩ (by simp [TestNewHTTP])
    exact congrArg HTTPPayload.RequestURL this

/-- C15, amended, at a request with scheme, host, path and query, and at the request of
"simple request". -/
theorem C15_witness :
    (NewHTTP requestURL
        (some { Request.zero with URL := some ⟨"https", "example.com", "/a", "q=1"⟩ })
        none).RequestURL = "https://example.com" ∧
      (NewHTTP requestURL (some simpleRequest) none).RequestURL = "/" :=
  ⟨(C15_RequestURL { Request.zero with URL := some ⟨"https", "example.com", "/a", "q=1"⟩ }).2.1
      ⟨"https", "example.com", "/a", "q=1"⟩ rfl (by decide) (by decide),
    (C15_RequestURL simpleRequest).2.2.1 ⟨"", "", "/", ""⟩ rfl rfl rfl⟩

/-- C16: absent inputs leave zero values.  `NewHTTP(nil, nil)` is the zero payload;
`NewHTTP(req, nil)` has the status 0 and an empty `ResponseSize`; `NewHTTP(nil, res)` has the
status code of `res` and every field taken from the request empty; a request without a body
leaves `RequestSize` empty and a body of `n` bytes gives the decimal string of `n` (5 bytes
give "5"). -/
theorem C16_absent_inputs (urlString : URL → String) :
    NewHTTP urlString none none = HTTPPayload.zero ∧
      (∀ req : Request,
        (NewHTTP urlString (some req) none).Status = 0 ∧
          (NewHTTP urlString (some req) none).ResponseSize = "") ∧
      (∀ res : Response,
        (NewHTTP urlString none (some res)).Status = res.StatusCode ∧
          (NewHTTP urlString none (some res)).RequestMethod = "" ∧
          (NewHTTP urlString none (some res)).RequestURL = "" ∧
          (NewHTTP urlString none (some res)).RequestSize = "" ∧
          (NewHTTP urlString none (some res)).UserAgent = "" ∧
          (NewHTTP urlString none (some res)).RemoteIP = "" ∧
          (NewHTTP urlString none (some res)).Referer = "" ∧
          (NewHTTP urlString none (some res)).Protocol = "") ∧
      (∀ (req : Request) (res : Option Response), req.Body = none →
        (NewHTTP urlString (some req) res).RequestSize = "") ∧
      (∀ (req : Request) (res : Option Response) (body : List Nat), req.Body = some body →
        (NewHTTP urlString (some req) res).RequestSize = toString body.length) ∧
      (NewHTTP urlString (some { Request.zero with Body := some body12345 }) none).RequestSize
        = "5" := by
  refine ⟨rfl, fun req => ⟨rfl, rfl⟩, fun res => ⟨rfl, rfl, rfl, rfl, rfl, rfl, rfl, rfl⟩,
    fun req res hb => ?_, fun req res body hb => ?_, rfl⟩
  · simp [NewHTTP, hb]
  · simp [NewHTTP, hb]

/-- C17: the report context `newReportContext` builds has, as its one field `ReportLocation`,
the source location `newSource` builds from the same descriptor, whatever `ok` is: the file
and the function of the descriptor, and the line as a decimal string (23 gives "23"). -/
theorem C17_report_wraps_source (frame : Frame) :
    (newReportContext frame).ReportLocation = newSource frame ∧
      newReportContext frame = ⟨newSource frame⟩ ∧
      (newSource frame).File = frame.file ∧
      (newSource frame).Function = frame.function ∧
      (newSource frame).Line = toString frame.line ∧
      (newSource { frame with line := 23 }).Line = "23" ∧
      (newReportContext { frame with ok := false }).ReportLocation
        = newSource { frame with ok := false } :=
  ⟨rfl, rfl, rfl, rfl, rfl, rfl, rfl⟩

/-- C18: every reachable logger has a `labelList` and a `fieldList` whose length is their
capacity (0 and 0 for the nil slices of a root), so the `append` of `Info`, `Error` and `Fatal`
allocates a new array and writes nothing into the array of `fieldList`; after `Info(msg)`,
`Error(msg, err)` and `Fatal(msg, err)` the logger's `labelMap`, `labelList`, `fieldMap` and
`fieldList` are what they were; and two `Info` calls one after the other pass the same fields
to the engine. -/
theorem C18_emit_leaves_logger [Inhabited Z] (zap : ZapLib E F Z Err) (w : World E F Z)
    (l : Logger E) (h : Reachable zap w l) (msg : String) (err : Option Err) :
    (l.labelList.len = l.labelList.cap ∧ l.fieldList.len = l.fieldList.cap) ∧
      (∀ (x : Z) (xs : List Z),
        (w.append l.fieldList (x :: xs)).1.arr = some w.arrays.length ∧
          (w.append l.fieldList (x :: xs)).2.arrays
            = w.arrays ++ [w.elems l.fieldList ++ x :: xs]) ∧
      ((Info zap w l msg).labelMapAt l.labelMap = w.labelMapAt l.labelMap ∧
        (Info zap w l msg).elems l.labelList = w.elems l.labelList ∧
        (Info zap w l msg).fieldMapAt l.fieldMap = w.fieldMapAt l.fieldMap ∧
        (Info zap w l msg).elems l.fieldList = w.elems l.fieldList) ∧
      ((Error zap w l msg err).labelMapAt l.labelMap = w.labelMapAt l.labelMap ∧
        (Error zap w l msg err).elems l.labelList = w.elems l.labelList ∧
        (Error zap w l msg err).fieldMapAt l.fieldMap = w.fieldMapAt l.fieldMap ∧
        (Error zap w l msg err).elems l.fieldList = w.elems l.fieldList) ∧
      ((Fatal zap w l msg err).labelMapAt l.labelMap = w.labelMapAt l.labelMap ∧
        (Fatal zap w l msg err).elems l.labelList = w.elems l.labelList ∧
        (Fatal zap w l msg err).fieldMapAt l.fieldMap = w.fieldMapAt l.fieldMap ∧
        (Fatal zap w l msg err).elems l.fieldList = w.elems l.fieldList) ∧
      ∀ msg' : String,
        (Info zap (Info zap w l msg) l msg').calls = w.calls ++
          [⟨l.logger, Level.info, msg,
              w.elems l.fieldList ++ [zap.Labels (w.elems l.labelList)]⟩,
            ⟨l.logger, Level.info, msg',
              w.elems l.fieldList ++ [zap.Labels (w.elems l.labelList)]⟩] := by
  obtain ⟨hl, h1, h2, -⟩ := h.consistent
  obtain ⟨il, i1, i2, i3, i4⟩ := (Info_extends zap h2 msg).frame hl
  obtain ⟨-, e1, e2, e3, e4⟩ := (Error_extends zap h2 msg err).frame hl
  obtain ⟨-, f1, f2, f3, f4⟩ := (Fatal_extends zap h2 msg err).frame hl
  refine ⟨⟨h1, h2⟩, fun x xs => World.append_fresh w h2 x xs, ⟨i1, i2, i3, i4⟩,
    ⟨e1, e2, e3, e4⟩, ⟨f1, f2, f3, f4⟩, fun msg' => ?_⟩
  rw [Info_calls zap il.2.2.2 msg', Info_calls zap hl.2.2.2 msg, i2, i4, List.append_assoc]
  rfl

/-- C18 at `exRoot.WithLabel("a", "1").WithLabel("b", "2")`: after `Info` its label list
reads as before. -/
theorem C18_witness :
    Reachable symZap exTwoLabels.2 exTwoLabels.1 ∧
      (Info symZap exTwoLabels.2 exTwoLabels.1 "hello").elems exTwoLabels.1.labelList
        = [SymField.label "b" "2", SymField.label "a" "1"] :=
  ⟨Reachable.derive (WithCall.withLabel "b" "2")
      (Reachable.derive (WithCall.withLabel "a" "1") exRoot_reachable),
    (C18_emit_leaves_logger symZap exTwoLabels.2 exTwoLabels.1
      (Reachable.derive (WithCall.withLabel "b" "2")
        (Reachable.derive (WithCall.withLabel "a" "1") exRoot_reachable))
      "hello" none).2.2.1.2.1⟩

/-- C19, as stated, fails.  `L = exRoot.WithField("x", 1)` is reachable; derive
`A = L.WithField("y", 2)` and then `B = L.WithFields({"y": 2})`.  Both have the fields x and
y, but the `fieldList` of `A` is `[Any(y, 2), Any(x, 1)]` and that of `B` is
`[Any(x, 1), Any(y, 2)]`: each was built by its own range over the map. -/
theorem C19_counterexample :
    Reachable symZap exOneField.2 exOneField.1 ∧
      (WithFields symZap (WithField symZap exOneField.2 exOneField.1 "y" 2).2 exOneField.1
          (AList.singleton "y" 2)).2.elems
          (WithField symZap exOneField.2 exOneField.1 "y" 2).1.fieldList
        = [SymField.any "y" 2, SymField.any "x" 1] ∧
      (WithFields symZap (WithField symZap exOneField.2 exOneField.1 "y" 2).2 exOneField.1
          (AList.singleton "y" 2)).2.elems
          (WithFields symZap (WithField symZap exOneField.2 exOneField.1 "y" 2).2 exOneField.1
            (AList.singleton "y" 2)).1.fieldList
        = [SymField.any "x" 1, SymField.any "y" 2] ∧
      (WithFields symZap (WithField symZap exOneField.2 exOneField.1 "y" 2).2 exOneField.1
          (AList.singleton "y" 2)).2.elems
          (WithField symZap exOneField.2 exOneField.1 "y" 2).1.fieldList
        ≠ (WithFields symZap (WithField symZap exOneField.2 exOneField.1 "y" 2).2 exOneField.1
            (AList.singleton "y" 2)).2.elems
          (WithFields symZap (WithField symZap exOneField.2 exOneField.1 "y" 2).2 exOneField.1
            (AList.singleton "y" 2)).1.fieldList :=
  ⟨Reachable.derive (WithCall.withField "x" 1)
      (Reachable.root
        (World.start (fun n => if n = 8 then RangeOrder.reversed else RangeOrder.stored))
        "svc" exRoot none rfl),
    by decide, by decide, by decide⟩

/-- C19, amended: `L.WithFields({key: value})` and `L.WithField(key, value)`, for a reserved
key or not, return loggers with equal `labelMap`, `labelList` and `fieldMap`, and with
`fieldList`s that hold the same entries, each as often, in some order; `L.WithLabels({key:
value})` and `L.WithLabel(key, value)` return loggers with equal `labelMap`, `fieldMap` and
`fieldList`, and with `labelList`s that hold the same entries in some order.  This holds
whether the two calls are run from the same world or one after the other. -/
theorem C19_single_and_map_forms [Inhabited Z] (zap : ZapLib E F Z Err) (w : World E F Z)
    (l : Logger E) (hl : w.Live l) (key : String) (value : F) (lkey lvalue : String) :
    (let A := WithField zap w l key value
     let B := WithFields zap w l (AList.singleton key value)
     (∀ k, (A.2.labelMapAt A.1.labelMap).lookup k = (B.2.labelMapAt B.1.labelMap).lookup k) ∧
      A.2.elems A.1.labelList = B.2.elems B.1.labelList ∧
      (∀ k, (A.2.fieldMapAt A.1.fieldMap).lookup k = (B.2.fieldMapAt B.1.fieldMap).lookup k) ∧
      (A.2.elems A.1.fieldList).Perm (B.2.elems B.1.fieldList)) ∧
    (let A := WithField zap w l key value
     let B := WithFields zap A.2 l (AList.singleton key value)
     (∀ k, (B.2.labelMapAt A.1.labelMap).lookup k = (B.2.labelMapAt B.1.labelMap).lookup k) ∧
      B.2.elems A.1.labelList = B.2.elems B.1.labelList ∧
      (∀ k, (B.2.fieldMapAt A.1.fieldMap).lookup k = (B.2.fieldMapAt B.1.fieldMap).lookup k) ∧
      (B.2.elems A.1.fieldList).Perm (B.2.elems B.1.fieldList)) ∧
    (let A := WithLabel zap w l lkey lvalue
     let B := WithLabels zap w l (AList.singleton lkey lvalue)
     (∀ k, (A.2.labelMapAt A.1.labelMap).lookup k = (B.2.labelMapAt B.1.labelMap).lookup k) ∧
      (A.2.elems A.1.labelList).Perm (B.2.elems B.1.labelList) ∧
      (∀ k, (A.2.fieldMapAt A.1.fieldMap).lookup k = (B.2.fieldMapAt B.1.fieldMap).lookup k) ∧
      A.2.elems A.1.fieldList = B.2.elems B.1.fieldList) ∧
    (let A := WithLabel zap w l lkey lvalue
     let B := WithLabels zap A.2 l (AList.singleton lkey lvalue)
     (∀ k, (B.2.labelMapAt A.1.labelMap).lookup k = (B.2.labelMapAt B.1.labelMap).lookup k) ∧
      (B.2.elems A.1.labelList).Perm (B.2.elems B.1.labelList) ∧
      (∀ k, (B.2.fieldMapAt A.1.fieldMap).lookup k = (B.2.fieldMapAt B.1.fieldMap).lookup k) ∧
      B.2.elems A.1.fieldList = B.2.elems B.1.fieldList) := by
  refine ⟨WithField_WithFields_agree zap (World.Extends.refl w) hl key value, ?_,
    WithLabel_WithLabels_agree zap (World.Extends.refl w) hl lkey lvalue, ?_⟩
  · dsimp only
    obtain ⟨a1, a2, -⟩ := (WithField_derived zap w l key value).field_facts
    obtain ⟨b1, -⟩ := (WithFields_derived zap (WithField zap w l key value).2 l
      (AList.singleton key value)).field_facts
    obtain ⟨-, e1, e2, e3, e4⟩ := b1.frame a2
    obtain ⟨h1, h2, h3, h4⟩ := WithField_WithFields_agree zap a1 hl key value
    exact ⟨fun k => (congrArg (AList.lookup k) e1).trans (h1 k), e2.trans h2,
      fun k => (congrArg (AList.lookup k) e3).trans (h3 k), (List.Perm.of_eq e4).trans h4⟩
  · dsimp only
    obtain ⟨a1, a2, -⟩ := (WithLabel_derived zap w l lkey lvalue).label_facts
    obtain ⟨b1, -⟩ := (WithLabels_derived zap (WithLabel zap w l lkey lvalue).2 l
      (AList.singleton lkey lvalue)).label_facts
    obtain ⟨-, e1, e2, e3, e4⟩ := b1.frame a2
    obtain ⟨h1, h2, h3, h4⟩ := WithLabel_WithLabels_agree zap a1 hl lkey lvalue
    exact ⟨fun k => (congrArg (AList.lookup k) e1).trans (h1 k), (List.Perm.of_eq e2).trans h2,
      fun k => (congrArg (AList.lookup k) e3).trans (h3 k), e4.trans h4⟩

/-- C19, amended, at `exRoot.WithField("x", 1)` with the field "y": the two field lists hold
the same entries. -/
theorem C19_witness :
    exOneField.2.Live exOneField.1 ∧
      ((WithFields symZap (WithField symZap exOneField.2 exOneField.1 "y" 2).2 exOneField.1
          (AList.singleton "y" 2)).2.elems
          (WithField symZap exOneField.2 exOneField.1 "y" 2).1.fieldList).Perm
        ((WithFields symZap (WithField symZap exOneField.2 exOneField.1 "y" 2).2 exOneField.1
          (AList.singleton "y" 2)).2.elems
          (WithFields symZap (WithField symZap exOneField.2 exOneField.1 "y" 2).2 exOneField.1
            (AList.singleton "y" 2)).1.fieldList) :=
  ⟨by decide,
    (C19_single_and_map_forms symZap exOneField.2 exOneField.1 (by decide) "y" 2 "a"
      "1").2.1.2.2.2⟩

/-- C20 (last write wins, a repeated write changes nothing).  With
`A = L.WithLabel(key, v₁)`, `B = A.WithLabel(key, v₂)` and `C = L.WithLabel(key, v₂)`, whether
`C` is derived in the world `L` started in or after `B`: `B` and `C` have `labelMap`s with the
same entries, and `A.WithLabel(key, v₁)` has the `labelMap` and the `fieldMap` of `A`.  The
same for `WithField` and the `fieldMap`, for every key (for a reserved key all of them have
the `fieldMap` of `L`). -/
theorem C20_last_write_wins [Inhabited Z] (zap : ZapLib E F Z Err) (w : World E F Z)
    (l : Logger E) (hl : w.Live l) (key v₁ v₂ : String) (fkey : String) (f₁ f₂ : F) :
    (let A := WithLabel zap w l key v₁
     let B := WithLabel zap A.2 A.1 key v₂
     let C := WithLabel zap w l key v₂
     let C' := WithLabel zap B.2 l key v₂
     let A₂ := WithLabel zap A.2 A.1 key v₁
     (∀ k, (B.2.labelMapAt B.1.labelMap).lookup k = (C.2.labelMapAt C.1.labelMap).lookup k) ∧
      (∀ k, (C'.2.labelMapAt B.1.labelMap).lookup k
        = (C'.2.labelMapAt C'.1.labelMap).lookup k) ∧
      (∀ k, (A₂.2.labelMapAt A₂.1.labelMap).lookup k = (A₂.2.labelMapAt A.1.labelMap).lookup k) ∧
      (∀ k, (A₂.2.fieldMapAt A₂.1.fieldMap).lookup k
        = (A₂.2.fieldMapAt A.1.fieldMap).lookup k)) ∧
    (let A := WithField zap w l fkey f₁
     let B := WithField zap A.2 A.1 fkey f₂
     let C := WithField zap w l fkey f₂
     let C' := WithField zap B.2 l fkey f₂
     let A₂ := WithField zap A.2 A.1 fkey f₁
     (∀ k, (B.2.fieldMapAt B.1.fieldMap).lookup k = (C.2.fieldMapAt C.1.fieldMap).lookup k) ∧
      (∀ k, (C'.2.fieldMapAt B.1.fieldMap).lookup k
        = (C'.2.fieldMapAt C'.1.fieldMap).lookup k) ∧
      (∀ k, (A₂.2.fieldMapAt A₂.1.fieldMap).lookup k = (A₂.2.fieldMapAt A.1.fieldMap).lookup k) ∧
      (∀ k, (A₂.2.labelMapAt A₂.1.labelMap).lookup k
        = (A₂.2.labelMapAt A.1.labelMap).lookup k)) := by
  constructor
  · intro A B C C' A₂
    obtain ⟨a1, a2, -, -, a5, -⟩ := (WithLabel_derived zap w l key v₁).label_facts
    obtain ⟨b1, b2, -⟩ := (WithLabel_derived zap A.2 A.1 key v₂).label_facts
    obtain ⟨c1, -⟩ := (WithLabel_derived zap B.2 l key v₂).label_facts
    obtain ⟨d1, -, -, -, d5, -, d7, -⟩ := (WithLabel_derived zap A.2 A.1 key v₁).label_facts
    obtain ⟨-, l1, -⟩ := (a1.trans b1).frame hl
    obtain ⟨-, m1, -⟩ := c1.frame b2
    obtain ⟨-, n1, -, n3, -⟩ := d1.frame a2
    refine ⟨fun k => last_label_wins zap w w l key v₁ v₂ rfl k, fun k => ?_, fun k => ?_,
      fun k => ?_⟩
    · rw [m1]; exact last_label_wins zap w B.2 l key v₁ v₂ l1 k
    · rw [n1, d5 k, a5 k]; by_cases hk : k = key <;> simp [hk]
    · rw [n3, d7 k]
  · intro A B C C' A₂
    obtain ⟨a1, a2, -, -, a5, -⟩ := (WithField_derived zap w l fkey f₁).field_facts
    obtain ⟨b1, b2, -⟩ := (WithField_derived zap A.2 A.1 fkey f₂).field_facts
    obtain ⟨c1, -⟩ := (WithField_derived zap B.2 l fkey f₂).field_facts
    obtain ⟨d1, -, -, -, d5, -, d7, -⟩ := (WithField_derived zap A.2 A.1 fkey f₁).field_facts
    obtain ⟨-, -, -, l3, -⟩ := (a1.trans b1).frame hl
    obtain ⟨-, -, -, m3, -⟩ := c1.frame b2
    obtain ⟨-, n1, -, n3, -⟩ := d1.frame a2
    refine ⟨fun k => last_field_wins zap w w l fkey f₁ f₂ rfl k, fun k => ?_, fun k => ?_,
      fun k => ?_⟩
    · rw [m3]; exact last_field_wins zap w B.2 l fkey f₁ f₂ l3 k
    · rw [n3, d5 k, a5 k]
      by_cases hk : k = fkey <;> by_cases hd : isDefaultKey fkey = false <;> simp [hk, hd]
    · rw [n1, d7 k]

/-- C20 at `exRoot`, label "a" written as "1" and then as "2", field "user" as 1 and 2. -/
theorem C20_witness :
    exWorld.Live exRoot ∧
      (World.labelMapAt
        (WithLabel symZap (WithLabel symZap exWorld exRoot "a" "1").2
          (WithLabel symZap exWorld exRoot "a" "1").1 "a" "2").2
        (WithLabel symZap (WithLabel symZap exWorld exRoot "a" "1").2
          (WithLabel symZap exWorld exRoot "a" "1").1 "a" "2").1.labelMap).lookup "a"
        = some "2" :=
  ⟨exRoot_live,
    (C20_last_write_wins symZap exWorld exRoot exRoot_live "a" "1" "2" "user" 1 2).1.1 "a"⟩

end Claims

end Pazdriver
